import Mathlib

/-!
Verification of the AgeCalculator repository (`age_calculator.py`) against its
natural-language specification.

The development shallowly embeds the two core components:

* calendar arithmetic primitives mirroring Python's `datetime.date`
  (proleptic Gregorian calendar, ordinal day counts as in `date.toordinal`),
* `AgeCalculator.calculate_age`,
* `DateParser.parse_date` with its full strategy cascade, including a model of
  CPython's `datetime.datetime.strptime` for the format table.

Machine integers do not occur in the source (Python integers are unbounded),
so `Nat`/`Int` are used directly.  Python's `datetime.date` is a triple
(year, month, day), valid per Gregorian rules with `1 <= year <= 9999`; the
year cap matters only where the source can hit it and is stated locally there.
-/

namespace AgeCalc

/-- Model of Python's `datetime.date` value: a (year, month, day) triple.
Validity (Gregorian rules) is tracked by the `validDate` predicate. -/
structure Date where
  year : Nat
  month : Nat
  day : Nat
  deriving DecidableEq, Repr

/-- Model of `calendar.isleap`: Gregorian leap-year rule. -/
def isleap (y : Nat) : Bool :=
  y % 4 == 0 && (y % 100 != 0 || y % 400 == 0)

/-- Number of days in a month of a given year (as in `datetime._days_in_month`). -/
def daysInMonth (y m : Nat) : Nat :=
  if m = 2 then (if isleap y then 29 else 28)
  else if m = 4 ∨ m = 6 ∨ m = 9 ∨ m = 11 then 30 else 31

/-- Number of days in the year. -/
def daysInYear (y : Nat) : Nat := if isleap y then 366 else 365

/-- Number of days in year `y` strictly before month `m`
(as in `datetime._days_before_month`). -/
def daysBeforeMonth (y : Nat) : Nat → Nat
  | 0 => 0
  | 1 => 0
  | m + 1 => daysBeforeMonth y m + daysInMonth y m

/-- Number of days strictly before January 1 of year `y`
(as in `datetime._days_before_year`). -/
def daysBeforeYear (y : Nat) : Nat :=
  365 * (y - 1) + (y - 1) / 4 - (y - 1) / 100 + (y - 1) / 400

/-- Model of `datetime.date.toordinal`: day 1 is 0001-01-01. -/
def toOrd (d : Date) : Nat :=
  daysBeforeYear d.year + daysBeforeMonth d.year d.month + d.day

/-- Gregorian validity of a date triple (Python additionally caps the year at
9999; that cap is stated separately where the source depends on it). -/
def validDate (d : Date) : Prop :=
  1 ≤ d.year ∧ 1 ≤ d.month ∧ d.month ≤ 12 ∧ 1 ≤ d.day ∧ d.day ≤ daysInMonth d.year d.month

instance (d : Date) : Decidable (validDate d) := by
  unfold validDate; infer_instance

/-- Python `date` comparison is lexicographic on (year, month, day). -/
def dateLtB (a b : Date) : Bool :=
  a.year < b.year ||
    (a.year == b.year && (a.month < b.month ||
      (a.month == b.month && a.day < b.day)))

/-- Model of subtracting one day (`d - timedelta(days=1)`). -/
def predDate (d : Date) : Date :=
  if 1 < d.day then ⟨d.year, d.month, d.day - 1⟩
  else if 1 < d.month then ⟨d.year, d.month - 1, daysInMonth d.year (d.month - 1)⟩
  else ⟨d.year - 1, 12, 31⟩

/-- Model of adding one day. -/
def succDate (d : Date) : Date :=
  if d.day < daysInMonth d.year d.month then ⟨d.year, d.month, d.day + 1⟩
  else if d.month < 12 then ⟨d.year, d.month + 1, 1⟩
  else ⟨d.year + 1, 1, 1⟩

/-- Model of `d + timedelta(days=n)` by iterated successor. -/
def addDays (d : Date) : Nat → Date
  | 0 => d
  | n + 1 => addDays (succDate d) n

/- ### Basic calendar lemmas -/

theorem daysInMonth_pos (y m : Nat) : 1 ≤ daysInMonth y m := by
  unfold daysInMonth
  split_ifs <;> omega

theorem daysInMonth_le_31 (y m : Nat) : daysInMonth y m ≤ 31 := by
  unfold daysInMonth
  split_ifs <;> omega

theorem daysInMonth_ge_28 (y m : Nat) : 28 ≤ daysInMonth y m := by
  unfold daysInMonth
  split_ifs <;> omega

theorem daysInMonth_ne_two {m : Nat} (h : m ≠ 2) (y y' : Nat) :
    daysInMonth y m = daysInMonth y' m := by
  unfold daysInMonth
  rw [if_neg h, if_neg h]

theorem daysBeforeMonth_succ (y m : Nat) (h : 1 ≤ m) :
    daysBeforeMonth y (m + 1) = daysBeforeMonth y m + daysInMonth y m := by
  cases m with
  | zero => omega
  | succ n => rfl

theorem daysBeforeMonth_mono (y : Nat) {m m' : Nat} (h : m ≤ m') :
    daysBeforeMonth y m ≤ daysBeforeMonth y m' := by
  induction m' with
  | zero => simp_all
  | succ n ih =>
    rcases Nat.lt_or_ge m (n + 1) with hlt | hge
    · have hmn : m ≤ n := by omega
      cases n with
      | zero =>
        interval_cases m <;> simp [daysBeforeMonth]
      | succ k =>
        calc daysBeforeMonth y m ≤ daysBeforeMonth y (k + 1) := ih hmn
          _ ≤ daysBeforeMonth y (k + 1) + daysInMonth y (k + 1) := Nat.le_add_right _ _
          _ = daysBeforeMonth y (k + 2) := rfl
    · have : m = n + 1 := by omega
      subst this; exact Nat.le.refl

theorem daysBeforeMonth_13 (y : Nat) : daysBeforeMonth y 13 = daysInYear y := by
  by_cases h : isleap y = true <;>
    simp [daysBeforeMonth, daysInMonth, daysInYear, h]

theorem isleap_iff (y : Nat) :
    isleap y = true ↔ (y % 4 = 0 ∧ (y % 100 ≠ 0 ∨ y % 400 = 0)) := by
  simp [isleap]

set_option maxHeartbeats 1000000 in
theorem daysBeforeYear_succ (y : Nat) (h : 1 ≤ y) :
    daysBeforeYear (y + 1) = daysBeforeYear y + daysInYear y := by
  have hs : y + 1 - 1 = y := by omega
  by_cases hl : isleap y = true
  · have hc : y % 4 = 0 ∧ (y % 100 ≠ 0 ∨ y % 400 = 0) := (isleap_iff y).mp hl
    simp only [daysBeforeYear, daysInYear, hl, if_true, hs]
    omega
  · have hc : ¬ (y % 4 = 0 ∧ (y % 100 ≠ 0 ∨ y % 400 = 0)) := by
      rw [← isleap_iff]; exact hl
    simp only [daysBeforeYear, daysInYear, hs]
    rw [if_neg hl]
    push_neg at hc
    omega

theorem daysBeforeYear_mono {y y' : Nat} (h1 : 1 ≤ y) (h : y ≤ y') :
    daysBeforeYear y ≤ daysBeforeYear y' := by
  induction y' with
  | zero => omega
  | succ n ih =>
    rcases Nat.lt_or_ge y (n + 1) with hlt | hge
    · have hn : 1 ≤ n := by omega
      calc daysBeforeYear y ≤ daysBeforeYear n := ih (by omega)
        _ ≤ daysBeforeYear n + daysInYear n := Nat.le_add_right _ _
        _ = daysBeforeYear (n + 1) := (daysBeforeYear_succ n hn).symm
    · have : y = n + 1 := by omega
      subst this; exact Nat.le.refl

theorem toOrd_le_year_end {d : Date} (h : validDate d) :
    toOrd d ≤ daysBeforeYear d.year + daysInYear d.year := by
  obtain ⟨h1, h2, h3, h4, h5⟩ := h
  have hb : daysBeforeMonth d.year d.month + d.day ≤ daysInYear d.year := by
    have : daysBeforeMonth d.year d.month + d.day ≤
        daysBeforeMonth d.year d.month + daysInMonth d.year d.month := by omega
    have h6 : daysBeforeMonth d.year d.month + daysInMonth d.year d.month =
        daysBeforeMonth d.year (d.month + 1) := (daysBeforeMonth_succ _ _ h2).symm
    have h7 : daysBeforeMonth d.year (d.month + 1) ≤ daysBeforeMonth d.year 13 :=
      daysBeforeMonth_mono _ (by omega)
    rw [daysBeforeMonth_13] at h7
    omega
  unfold toOrd
  omega

theorem toOrd_lt_of_dateLtB {a b : Date} (ha : validDate a) (hb : validDate b)
    (h : dateLtB a b = true) : toOrd a < toOrd b := by
  obtain ⟨ha1, ha2, ha3, ha4, ha5⟩ := ha
  obtain ⟨hb1, hb2, hb3, hb4, hb5⟩ := hb
  unfold dateLtB at h
  simp only [Bool.or_eq_true, Bool.and_eq_true, decide_eq_true_eq, beq_iff_eq] at h
  rcases h with hy | ⟨hy, hm | ⟨hm, hd⟩⟩
  · have h1 : toOrd a ≤ daysBeforeYear a.year + daysInYear a.year :=
      toOrd_le_year_end ⟨ha1, ha2, ha3, ha4, ha5⟩
    have h2 : daysBeforeYear a.year + daysInYear a.year = daysBeforeYear (a.year + 1) :=
      (daysBeforeYear_succ _ ha1).symm
    have h3 : daysBeforeYear (a.year + 1) ≤ daysBeforeYear b.year :=
      daysBeforeYear_mono (by omega) (by omega)
    have h4 : daysBeforeYear b.year < toOrd b := by
      unfold toOrd; omega
    omega
  · have h1 : daysBeforeMonth a.year a.month + a.day ≤
        daysBeforeMonth a.year (a.month + 1) := by
      rw [daysBeforeMonth_succ _ _ ha2]; omega
    have h2 : daysBeforeMonth a.year (a.month + 1) ≤ daysBeforeMonth a.year b.month :=
      daysBeforeMonth_mono _ (by omega)
    unfold toOrd
    rw [hy] at *
    omega
  · unfold toOrd
    rw [hy, hm]
    omega

theorem dateLtB_trichotomy (a b : Date) :
    dateLtB a b = true ∨ a = b ∨ dateLtB b a = true := by
  unfold dateLtB
  rcases Nat.lt_trichotomy a.year b.year with h | h | h
  · left; simp [h]
  · rcases Nat.lt_trichotomy a.month b.month with hm | hm | hm
    · left; simp [h, hm]
    · rcases Nat.lt_trichotomy a.day b.day with hd | hd | hd
      · left; simp [h, hm, hd]
      · right; left
        cases a; cases b; simp_all
      · right; right; simp [h.symm, hm.symm, hd]
    · right; right; simp [h.symm, hm]
  · right; right; simp [h]

theorem toOrd_inj {a b : Date} (ha : validDate a) (hb : validDate b)
    (h : toOrd a = toOrd b) : a = b := by
  rcases dateLtB_trichotomy a b with hlt | heq | hgt
  · have := toOrd_lt_of_dateLtB ha hb hlt; omega
  · exact heq
  · have := toOrd_lt_of_dateLtB hb ha hgt; omega

theorem toOrd_le_of_not_lt {a b : Date} (ha : validDate a) (hb : validDate b)
    (h : dateLtB a b = false) : toOrd b ≤ toOrd a := by
  rcases dateLtB_trichotomy a b with hlt | heq | hgt
  · rw [hlt] at h; cases h
  · subst heq; exact Nat.le.refl
  · exact Nat.le_of_lt (toOrd_lt_of_dateLtB hb ha hgt)

theorem succDate_valid {d : Date} (h : validDate d) : validDate (succDate d) := by
  obtain ⟨h1, h2, h3, h4, h5⟩ := h
  have ha := daysInMonth_ge_28 d.year (d.month + 1)
  have hb := daysInMonth_ge_28 (d.year + 1) 1
  unfold succDate validDate
  split
  · dsimp only; omega
  · split <;> dsimp only <;> omega

theorem toOrd_succDate {d : Date} (h : validDate d) :
    toOrd (succDate d) = toOrd d + 1 := by
  obtain ⟨h1, h2, h3, h4, h5⟩ := h
  unfold succDate
  split
  · unfold toOrd; dsimp only; omega
  · rename_i hfull
    push_neg at hfull
    have hday : d.day = daysInMonth d.year d.month := by omega
    split
    · unfold toOrd
      dsimp only
      rw [daysBeforeMonth_succ _ _ h2]
      omega
    · rename_i hm12
      have hm : d.month = 12 := by omega
      unfold toOrd
      dsimp only
      rw [daysBeforeYear_succ _ h1]
      have h13 := daysBeforeMonth_13 d.year
      have hstep : daysBeforeMonth d.year 13 =
          daysBeforeMonth d.year 12 + daysInMonth d.year 12 := rfl
      have hz : daysBeforeMonth (d.year + 1) 1 = 0 := rfl
      rw [hm] at hday ⊢
      omega

theorem addDays_eq_of_toOrd {b : Date} (hb : validDate b) :
    ∀ (k : Nat) (a : Date), validDate a → toOrd a + k = toOrd b → addDays a k = b := by
  intro k
  induction k with
  | zero =>
    intro a ha h
    show a = b
    exact toOrd_inj ha hb (by omega)
  | succ n ih =>
    intro a ha h
    show addDays (succDate a) n = b
    exact ih (succDate a) (succDate_valid ha) (by rw [toOrd_succDate ha]; omega)

/- ### AgeCalculator (`AgeCalculator.calculate_age`) -/

/-- Container mirroring the `AgeResult` dataclass (Python ints are unbounded,
so the numeric fields are `Int`). -/
structure AgeResult where
  years : Int
  months : Int
  days : Int
  total_days : Int
  birth_day_of_week : String
  next_birthday_in_days : Int
  deriving DecidableEq, Repr

/-- Weekday names as produced by `strftime("%A")` in the C locale. -/
def weekDayNames : List String :=
  ["Monday", "Tuesday", "Wednesday", "Thursday", "Friday", "Saturday", "Sunday"]

/-- Model of `birthday.strftime("%A")`: ordinal 1 (0001-01-01) is a Monday. -/
def birthDayOfWeek (d : Date) : String := weekDayNames.getD ((toOrd d - 1) % 7) ""

/-- Fixed message of the future-birthday `ValueError` in `calculate_age`. -/
def futureMsg : String := "Birthday cannot be in the future."

/-- Message of the `ValueError` raised by `date.replace(year=10000)`. -/
def yearRangeMsg : String := "year 10000 is out of range"

/-- The `years` computation of `calculate_age`: `today.year - birthday.year`
minus one when `(today.month, today.day) < (birthday.month, birthday.day)`. -/
def ageYears (b r : Date) : Int :=
  (r.year : Int) - b.year -
    (if r.month < b.month ∨ (r.month = b.month ∧ r.day < b.day) then 1 else 0)

/-- The `months` computation of `calculate_age`. -/
def ageMonths (b r : Date) : Int :=
  let m0 : Int := (r.month : Int) - b.month - (if r.day < b.day then 1 else 0)
  if m0 < 0 then m0 + 12 else m0

/-- Model of `today.replace(day=1) - timedelta(days=1)`. -/
def prevMonthLastDay (r : Date) : Date := predDate ⟨r.year, r.month, 1⟩

/-- The `days` computation of `calculate_age`: direct difference when
`today.day >= birthday.day`, otherwise day count from the anniversary placed in
the previous month (day clamped to that month's length). -/
def ageDays (b r : Date) : Int :=
  if b.day ≤ r.day then (r.day : Int) - b.day
  else
    let p := prevMonthLastDay r
    (toOrd r : Int) - toOrd ⟨p.year, p.month, min b.day p.day⟩

/-- Model of `birthday.replace(year=y)` with the `except ValueError`
fallback `birthday.replace(year=y, day=28)` of `calculate_age` (the
fallback fires exactly when the birth day does not exist in the target
month, i.e. for Feb 29 in a non-leap year).  The Python year-range
condition `y <= 9999` is checked by the caller. -/
def transplantYear (b : Date) (y : Nat) : Date :=
  if b.day ≤ daysInMonth y b.month then ⟨y, b.month, b.day⟩ else ⟨y, b.month, 28⟩

/-- Assembles the `AgeResult` returned by `calculate_age` (`(a - b).days`
differences are ordinal differences). -/
def mkAgeResult (birthday today nextBirthday : Date) : AgeResult :=
  { years := ageYears birthday today
    months := ageMonths birthday today
    days := ageDays birthday today
    total_days := (toOrd today : Int) - toOrd birthday
    birth_day_of_week := birthDayOfWeek birthday
    next_birthday_in_days := (toOrd nextBirthday : Int) - toOrd today }

/-- Model of `AgeCalculator.calculate_age`.  Raised `ValueError`s are
modelled as `Except.error` with the corresponding message: the guarded
future-birthday error, and the unguarded `date.replace(year=today.year+1)`
overflow when `today.year = 9999` (both `replace` calls of the second
`try`/`except` block raise in that case, so the error escapes). -/
def calculateAge (birthday today : Date) : Except String AgeResult :=
  if dateLtB today birthday then Except.error futureMsg
  else if dateLtB (transplantYear birthday today.year) today then
    if today.year + 1 ≤ 9999 then
      Except.ok (mkAgeResult birthday today (transplantYear birthday (today.year + 1)))
    else Except.error yearRangeMsg
  else Except.ok (mkAgeResult birthday today (transplantYear birthday today.year))

/-- The calendar walk of spec §4.2: the anniversary of `b` in year `y`,
month `m`, with a nonexistent day clamped to the last day of the month. -/
def anniversaryInMonth (b : Date) (y m : Nat) : Date :=
  ⟨y, m, min b.day (daysInMonth y m)⟩

/-- Advancing a birth date by whole years, then whole months (pure
(year, month) arithmetic, day clamped by the §4.2 anniversary rule), then
days. -/
def advanceYMD (b : Date) (yrs mos ds : Nat) : Date :=
  addDays
    (anniversaryInMonth b (b.year + yrs + (b.month - 1 + mos) / 12)
      ((b.month - 1 + mos) % 12 + 1)) ds

/- ### Lemmas about the age computation -/

theorem prevMonthLastDay_of_two_le {r : Date} (h : 2 ≤ r.month) :
    prevMonthLastDay r = ⟨r.year, r.month - 1, daysInMonth r.year (r.month - 1)⟩ := by
  unfold prevMonthLastDay predDate
  dsimp only
  rw [if_neg (by omega), if_pos (by omega)]

theorem prevMonthLastDay_of_month_one {r : Date} (h : r.month = 1) :
    prevMonthLastDay r = ⟨r.year - 1, 12, 31⟩ := by
  unfold prevMonthLastDay predDate
  dsimp only
  rw [if_neg (by omega), if_neg (by omega)]

theorem prevMonthLastDay_spec {r : Date} (hr : validDate r)
    (h2 : 2 ≤ r.year ∨ 2 ≤ r.month) :
    toOrd (prevMonthLastDay r) + 1 = toOrd ⟨r.year, r.month, 1⟩ ∧
    validDate (prevMonthLastDay r) ∧
    (prevMonthLastDay r).day =
      daysInMonth (prevMonthLastDay r).year (prevMonthLastDay r).month := by
  obtain ⟨hr1, hr2, hr3, hr4, hr5⟩ := hr
  by_cases hm : 2 ≤ r.month
  · rw [prevMonthLastDay_of_two_le hm]
    have hsucc : daysBeforeMonth r.year (r.month - 1 + 1) =
        daysBeforeMonth r.year (r.month - 1) + daysInMonth r.year (r.month - 1) :=
      daysBeforeMonth_succ _ _ (by omega)
    have hmm : r.month - 1 + 1 = r.month := by omega
    rw [hmm] at hsucc
    refine ⟨?_, ?_, rfl⟩
    · unfold toOrd
      dsimp only
      omega
    · unfold validDate
      dsimp only
      exact ⟨hr1, by omega, by omega, daysInMonth_pos _ _, Nat.le.refl⟩
  · have hm1 : r.month = 1 := by omega
    have hy2 : 2 ≤ r.year := by omega
    rw [prevMonthLastDay_of_month_one hm1]
    have hsucc : daysBeforeYear (r.year - 1 + 1) =
        daysBeforeYear (r.year - 1) + daysInYear (r.year - 1) :=
      daysBeforeYear_succ _ (by omega)
    have hyy : r.year - 1 + 1 = r.year := by omega
    rw [hyy] at hsucc
    have h13 := daysBeforeMonth_13 (r.year - 1)
    have hstep : daysBeforeMonth (r.year - 1) 13 =
        daysBeforeMonth (r.year - 1) 12 + daysInMonth (r.year - 1) 12 := rfl
    have hd12 : daysInMonth (r.year - 1) 12 = 31 := rfl
    refine ⟨?_, ?_, by dsimp only; rw [hd12]⟩
    · unfold toOrd
      dsimp only
      rw [hm1]
      have hz : daysBeforeMonth r.year 1 = 0 := rfl
      omega
    · unfold validDate
      dsimp only
      rw [hd12]
      exact ⟨by omega, by omega, by omega, by omega, by omega⟩

theorem transplantYear_valid {b : Date} (hb : validDate b) (y : Nat) (hy : 1 ≤ y) :
    validDate (transplantYear b y) := by
  obtain ⟨hb1, hb2, hb3, hb4, hb5⟩ := hb
  have h28 := daysInMonth_ge_28 y b.month
  unfold transplantYear validDate
  split <;> dsimp only <;> omega

theorem dateLtB_false_char {a c : Date} (h : dateLtB a c = false) :
    ¬ (a.year < c.year ∨ (a.year = c.year ∧ (a.month < c.month ∨
      (a.month = c.month ∧ a.day < c.day)))) := by
  simp only [dateLtB, Bool.or_eq_false_iff, Bool.and_eq_false_iff,
    decide_eq_false_iff_not, beq_eq_false_iff_ne, ne_eq] at h
  omega

theorem ageYears_nonneg {b r : Date} (hle : dateLtB r b = false) :
    0 ≤ ageYears b r := by
  have hle' := dateLtB_false_char hle
  simp only [ageYears]
  split_ifs <;> omega

theorem ageMonths_bounds {b r : Date} (hb : validDate b) (hr : validDate r) :
    0 ≤ ageMonths b r ∧ ageMonths b r ≤ 11 := by
  obtain ⟨hb1, hb2, hb3, hb4, hb5⟩ := hb
  obtain ⟨hr1, hr2, hr3, hr4, hr5⟩ := hr
  simp only [ageMonths]
  split_ifs <;> constructor <;> omega

theorem ageDays_eq_of_lt {b r : Date} (hday : ¬ b.day ≤ r.day) :
    ageDays b r = (toOrd r : Int) -
      toOrd ⟨(prevMonthLastDay r).year, (prevMonthLastDay r).month,
        min b.day (prevMonthLastDay r).day⟩ := by
  simp only [ageDays]
  rw [if_neg hday]

theorem prev_anniv_spec {b r : Date} (hb : validDate b) (hr : validDate r)
    (hday : ¬ b.day ≤ r.day) (h2 : 2 ≤ r.year ∨ 2 ≤ r.month) :
    (1 ≤ ageDays b r ∧ ageDays b r ≤ 30) ∧
    validDate ⟨(prevMonthLastDay r).year, (prevMonthLastDay r).month,
      min b.day (prevMonthLastDay r).day⟩ ∧
    (toOrd ⟨(prevMonthLastDay r).year, (prevMonthLastDay r).month,
      min b.day (prevMonthLastDay r).day⟩ : Int) + ageDays b r = toOrd r ∧
    (prevMonthLastDay r).day =
      daysInMonth (prevMonthLastDay r).year (prevMonthLastDay r).month := by
  obtain ⟨hb1, hb2, hb3, hb4, hb5⟩ := hb
  obtain ⟨hr1, hr2, hr3, hr4, hr5⟩ := hr
  obtain ⟨hpord, hpvalid, hpday⟩ :=
    prevMonthLastDay_spec ⟨hr1, hr2, hr3, hr4, hr5⟩ h2
  obtain ⟨hq1, hq2, hq3, hq4, hq5⟩ := hpvalid
  have h31p := daysInMonth_le_31 (prevMonthLastDay r).year (prevMonthLastDay r).month
  have h31b := daysInMonth_le_31 b.year b.month
  have hordp : toOrd (prevMonthLastDay r) =
      daysBeforeYear (prevMonthLastDay r).year +
        daysBeforeMonth (prevMonthLastDay r).year (prevMonthLastDay r).month +
        (prevMonthLastDay r).day := rfl
  have hord1 : toOrd (⟨r.year, r.month, 1⟩ : Date) =
      daysBeforeYear r.year + daysBeforeMonth r.year r.month + 1 := rfl
  have hordr : toOrd r =
      daysBeforeYear r.year + daysBeforeMonth r.year r.month + r.day := rfl
  rw [ageDays_eq_of_lt hday]
  rcases Nat.le_total b.day (prevMonthLastDay r).day with hmin | hmin
  · rw [Nat.min_eq_left hmin]
    have hordan : toOrd (⟨(prevMonthLastDay r).year, (prevMonthLastDay r).month,
        b.day⟩ : Date) =
        daysBeforeYear (prevMonthLastDay r).year +
          daysBeforeMonth (prevMonthLastDay r).year (prevMonthLastDay r).month +
          b.day := rfl
    refine ⟨⟨by omega, by omega⟩, ?_, by omega, hpday⟩
    unfold validDate
    dsimp only
    exact ⟨hq1, hq2, hq3, by omega, by omega⟩
  · rw [Nat.min_eq_right hmin]
    have hordan : toOrd (⟨(prevMonthLastDay r).year, (prevMonthLastDay r).month,
        (prevMonthLastDay r).day⟩ : Date) =
        daysBeforeYear (prevMonthLastDay r).year +
          daysBeforeMonth (prevMonthLastDay r).year (prevMonthLastDay r).month +
          (prevMonthLastDay r).day := rfl
    refine ⟨⟨by omega, by omega⟩, ?_, by omega, hpday⟩
    unfold validDate
    dsimp only
    exact ⟨hq1, hq2, hq3, by omega, by omega⟩

theorem ageDays_bounds {b r : Date} (hb : validDate b) (hr : validDate r)
    (hle : dateLtB r b = false) :
    0 ≤ ageDays b r ∧ ageDays b r ≤ 30 := by
  have hle' := dateLtB_false_char hle
  by_cases hday : b.day ≤ r.day
  · obtain ⟨hb1, hb2, hb3, hb4, hb5⟩ := hb
    obtain ⟨hr1, hr2, hr3, hr4, hr5⟩ := hr
    simp only [ageDays]
    rw [if_pos hday]
    have h31 := daysInMonth_le_31 r.year r.month
    constructor <;> omega
  · have h2 : 2 ≤ r.year ∨ 2 ≤ r.month := by
      obtain ⟨hb1, hb2, hb3, hb4, hb5⟩ := hb
      obtain ⟨hr1, hr2, hr3, hr4, hr5⟩ := hr
      omega
    obtain ⟨⟨hlo, hhi⟩, _, _, _⟩ := prev_anniv_spec hb hr hday h2
    exact ⟨by omega, hhi⟩

theorem caseB_walk {b r : Date} (hb : validDate b) (hr : validDate r)
    (hday : ¬ b.day ≤ r.day) (h2 : 2 ≤ r.year ∨ 2 ≤ r.month) :
    addDays ⟨(prevMonthLastDay r).year, (prevMonthLastDay r).month,
      min b.day (daysInMonth (prevMonthLastDay r).year (prevMonthLastDay r).month)⟩
      (ageDays b r).toNat = r := by
  obtain ⟨⟨hlo, hhi⟩, hvalid, hord, hpday⟩ := prev_anniv_spec hb hr hday h2
  rw [← hpday]
  exact addDays_eq_of_toOrd hr _ _ hvalid (by omega)

/-- C2: for every pair of valid dates with birth ≤ reference, advancing the
birth date by the computed whole years, then whole months (day clamped to the
target month's length by the §4.2 anniversary rule), then days, reproduces the
reference date exactly. -/
theorem claim_C2_age_recombination (b r : Date) (hb : validDate b)
    (hr : validDate r) (hle : dateLtB r b = false) :
    advanceYMD b (ageYears b r).toNat (ageMonths b r).toNat (ageDays b r).toNat = r := by
  have hle' := dateLtB_false_char hle
  obtain ⟨hb1, hb2, hb3, hb4, hb5⟩ := hb
  obtain ⟨hr1, hr2, hr3, hr4, hr5⟩ := hr
  by_cases hday : b.day ≤ r.day
  · have hDv : (ageDays b r).toNat = r.day - b.day := by
      simp only [ageDays]
      rw [if_pos hday]
      omega
    have hend : ∀ yv, yv = r.year →
        addDays ⟨yv, r.month, min b.day (daysInMonth yv r.month)⟩ (r.day - b.day) = r := by
      intro yv hyv
      subst hyv
      have hmin : min b.day (daysInMonth r.year r.month) = b.day := by omega
      rw [hmin]
      refine addDays_eq_of_toOrd ⟨hr1, hr2, hr3, hr4, hr5⟩ _ _ ?_ ?_
      · unfold validDate
        dsimp only
        exact ⟨hr1, hr2, hr3, hb4, by omega⟩
      · show daysBeforeYear r.year + daysBeforeMonth r.year r.month + b.day + (r.day - b.day) =
          daysBeforeYear r.year + daysBeforeMonth r.year r.month + r.day
        omega
    by_cases hm : r.month < b.month
    · have hby : b.year < r.year := by omega
      have hYv : (ageYears b r).toNat = r.year - b.year - 1 := by
        simp only [ageYears]
        split_ifs <;> omega
      have hMv : (ageMonths b r).toNat = 12 + r.month - b.month := by
        simp only [ageMonths]
        split_ifs <;> omega
      unfold advanceYMD anniversaryInMonth
      rw [hYv, hMv, hDv]
      have ht1 : (b.month - 1 + (12 + r.month - b.month)) / 12 = 1 := by omega
      have ht2 : (b.month - 1 + (12 + r.month - b.month)) % 12 + 1 = r.month := by omega
      rw [ht1, ht2]
      exact hend _ (by omega)
    · have hYv : (ageYears b r).toNat = r.year - b.year := by
        simp only [ageYears]
        split_ifs <;> omega
      have hMv : (ageMonths b r).toNat = r.month - b.month := by
        simp only [ageMonths]
        split_ifs <;> omega
      unfold advanceYMD anniversaryInMonth
      rw [hYv, hMv, hDv]
      have ht1 : (b.month - 1 + (r.month - b.month)) / 12 = 0 := by omega
      have ht2 : (b.month - 1 + (r.month - b.month)) % 12 + 1 = r.month := by omega
      rw [ht1, ht2]
      exact hend _ (by omega)
  · have h2 : 2 ≤ r.year ∨ 2 ≤ r.month := by omega
    have hfin := caseB_walk ⟨hb1, hb2, hb3, hb4, hb5⟩ ⟨hr1, hr2, hr3, hr4, hr5⟩ hday h2
    have hend : ∀ yv mv, yv = (prevMonthLastDay r).year → mv = (prevMonthLastDay r).month →
        addDays ⟨yv, mv, min b.day (daysInMonth yv mv)⟩ (ageDays b r).toNat = r := by
      intro yv mv hyv hmv
      subst hyv; subst hmv
      exact hfin
    by_cases hm : r.month ≤ b.month
    · have hby : b.year < r.year := by omega
      have hYv : (ageYears b r).toNat = r.year - b.year - 1 := by
        simp only [ageYears]
        split_ifs <;> omega
      have hMv : (ageMonths b r).toNat = 11 + r.month - b.month := by
        simp only [ageMonths]
        split_ifs <;> omega
      unfold advanceYMD anniversaryInMonth
      rw [hYv, hMv]
      by_cases hrm1 : r.month = 1
      · have hps := prevMonthLastDay_of_month_one hrm1
        have ht1 : (b.month - 1 + (11 + r.month - b.month)) / 12 = 0 := by omega
        have ht2 : (b.month - 1 + (11 + r.month - b.month)) % 12 + 1 = 12 := by omega
        rw [ht1, ht2]
        refine hend _ _ ?_ ?_ <;> rw [hps] <;> dsimp only <;> omega
      · have hps := prevMonthLastDay_of_two_le (by omega : 2 ≤ r.month)
        have ht1 : (b.month - 1 + (11 + r.month - b.month)) / 12 = 1 := by omega
        have ht2 : (b.month - 1 + (11 + r.month - b.month)) % 12 + 1 = r.month - 1 := by
          omega
        rw [ht1, ht2]
        refine hend _ _ ?_ ?_ <;> rw [hps] <;> dsimp only <;> omega
    · have hrm2 : 2 ≤ r.month := by omega
      have hps := prevMonthLastDay_of_two_le hrm2
      have hYv : (ageYears b r).toNat = r.year - b.year := by
        simp only [ageYears]
        split_ifs <;> omega
      have hMv : (ageMonths b r).toNat = r.month - b.month - 1 := by
        simp only [ageMonths]
        split_ifs <;> omega
      unfold advanceYMD anniversaryInMonth
      rw [hYv, hMv]
      have ht1 : (b.month - 1 + (r.month - b.month - 1)) / 12 = 0 := by omega
      have ht2 : (b.month - 1 + (r.month - b.month - 1)) % 12 + 1 = r.month - 1 := by
        omega
      rw [ht1, ht2]
      refine hend _ _ ?_ ?_ <;> rw [hps] <;> dsimp only <;> omega

/-- C2 witness: a concrete instance of the recombination theorem
(birth 2000-02-29, reference 2025-03-01, breakdown 25y 0m 1d). -/
theorem claim_C2_age_recombination_witness :
    validDate ⟨2000, 2, 29⟩ ∧ validDate ⟨2025, 3, 1⟩ ∧
    dateLtB ⟨2025, 3, 1⟩ ⟨2000, 2, 29⟩ = false ∧
    advanceYMD ⟨2000, 2, 29⟩ (ageYears ⟨2000, 2, 29⟩ ⟨2025, 3, 1⟩).toNat
      (ageMonths ⟨2000, 2, 29⟩ ⟨2025, 3, 1⟩).toNat
      (ageDays ⟨2000, 2, 29⟩ ⟨2025, 3, 1⟩).toNat = ⟨2025, 3, 1⟩ :=
  ⟨by decide, by decide, by decide,
    claim_C2_age_recombination ⟨2000, 2, 29⟩ ⟨2025, 3, 1⟩ (by decide) (by decide) (by decide)⟩

theorem transplantYear_year (b : Date) (y : Nat) : (transplantYear b y).year = y := by
  unfold transplantYear
  split <;> rfl

/-- Spec-side definition (wording of claim C8): the birth month/day
transplanted onto a target year, substituting February 28 when the birth date
is February 29 and the target year is not a leap year. -/
def specAnniversary (b : Date) (y : Nat) : Date :=
  if b.month = 2 ∧ b.day = 29 ∧ isleap y = false then ⟨y, 2, 28⟩
  else ⟨y, b.month, b.day⟩

/-- Spec-side definition (wording of claim C8): the transplant onto the
reference year when it is on or after the reference date, otherwise the
transplant onto the following year. -/
def specNextBirthday (b r : Date) : Date :=
  if dateLtB (specAnniversary b r.year) r = false then specAnniversary b r.year
  else specAnniversary b (r.year + 1)

theorem daysInMonth_feb_le (y : Nat) : daysInMonth y 2 ≤ 29 := by
  unfold daysInMonth
  split_ifs <;> omega

theorem transplantYear_eq_spec {b : Date} (hb : validDate b) (y : Nat) :
    transplantYear b y = specAnniversary b y := by
  obtain ⟨hv1, hv2, hv3, hv4, hv5⟩ := hb
  unfold transplantYear specAnniversary
  by_cases hc : b.month = 2 ∧ b.day = 29 ∧ isleap y = false
  · obtain ⟨hm2, hd29, hnl⟩ := hc
    have hdim : daysInMonth y b.month = 28 := by
      rw [hm2]
      unfold daysInMonth
      rw [if_pos rfl, if_neg (by simp [hnl])]
    rw [if_neg (show ¬ b.day ≤ daysInMonth y b.month by omega),
      if_pos ⟨hm2, hd29, hnl⟩]
    rw [hm2]
  · push_neg at hc
    have hok : b.day ≤ daysInMonth y b.month := by
      by_cases hm2 : b.month = 2
      · rw [hm2] at hv5 ⊢
        cases hly : isleap y
        · have hne : b.day ≠ 29 := fun h => (hc hm2 h) hly
          have hle := daysInMonth_feb_le b.year
          have : daysInMonth y 2 = 28 := by
            unfold daysInMonth
            rw [if_pos rfl, if_neg (by simp [hly])]
          omega
        · have : daysInMonth y 2 = 29 := by
            unfold daysInMonth
            rw [if_pos rfl, if_pos (by simp [hly])]
          have hle := daysInMonth_feb_le b.year
          omega
      · rw [daysInMonth_ne_two hm2 y b.year]
        exact hv5
    rw [if_pos hok, if_neg (by push_neg; exact hc)]

/-- Case analysis on `calculateAge`: a successful call returns `mkAgeResult`
with the next birthday transplanted onto the reference year (when on or after
the reference) or onto the next year. -/
theorem calculateAge_ok_cases {b r : Date} {res : AgeResult}
    (hok : calculateAge b r = Except.ok res) :
    dateLtB r b = false ∧
    ((dateLtB (transplantYear b r.year) r = false ∧
        res = mkAgeResult b r (transplantYear b r.year)) ∨
      (dateLtB (transplantYear b r.year) r = true ∧ r.year + 1 ≤ 9999 ∧
        res = mkAgeResult b r (transplantYear b (r.year + 1)))) := by
  unfold calculateAge at hok
  by_cases h1 : dateLtB r b = true
  · rw [if_pos h1] at hok
    cases hok
  · have hle : dateLtB r b = false := by
      revert h1; cases dateLtB r b <;> simp
    rw [if_neg (by simp [hle])] at hok
    refine ⟨hle, ?_⟩
    by_cases h2 : dateLtB (transplantYear b r.year) r = true
    · rw [if_pos h2] at hok
      by_cases h3 : r.year + 1 ≤ 9999
      · rw [if_pos h3] at hok
        exact Or.inr ⟨h2, h3, (Except.ok.inj hok).symm⟩
      · rw [if_neg h3] at hok
        cases hok
    · have h2f : dateLtB (transplantYear b r.year) r = false := by
        revert h2; cases dateLtB (transplantYear b r.year) r <;> simp
      rw [if_neg (by simp [h2f])] at hok
      exact Or.inl ⟨h2f, (Except.ok.inj hok).symm⟩

/-- C7: whenever `calculate_age` returns a result for valid dates, the fields
satisfy `years >= 0`, `months` in [0, 11], `days` in [0, 30],
`total_days >= 0` and `next_birthday_in_days >= 0`. -/
theorem claim_C7_result_bounds (b r : Date) (res : AgeResult) (hb : validDate b)
    (hr : validDate r) (hok : calculateAge b r = Except.ok res) :
    0 ≤ res.years ∧ 0 ≤ res.months ∧ res.months ≤ 11 ∧
    0 ≤ res.days ∧ res.days ≤ 30 ∧ 0 ≤ res.total_days ∧
    0 ≤ res.next_birthday_in_days := by
  obtain ⟨hle, hcases⟩ := calculateAge_ok_cases hok
  have hordtot := toOrd_le_of_not_lt hr hb hle
  obtain ⟨hm1, hm2⟩ := ageMonths_bounds hb hr
  obtain ⟨hd1, hd2⟩ := ageDays_bounds hb hr hle
  have hynn := ageYears_nonneg (b := b) (r := r) hle
  have hry : 1 ≤ r.year := hr.1
  rcases hcases with ⟨h2f, hres⟩ | ⟨h2t, h3, hres⟩
  · have hvnb : validDate (transplantYear b r.year) :=
      transplantYear_valid hb _ (by omega)
    have hord := toOrd_le_of_not_lt hvnb hr h2f
    rw [hres]
    simp only [mkAgeResult]
    exact ⟨hynn, hm1, hm2, hd1, hd2, by omega, by omega⟩
  · have hvnb : validDate (transplantYear b (r.year + 1)) :=
      transplantYear_valid hb _ (by omega)
    have hlt : dateLtB r (transplantYear b (r.year + 1)) = true := by
      have hy := transplantYear_year b (r.year + 1)
      simp only [dateLtB, hy, Bool.or_eq_true, decide_eq_true_eq]
      left
      omega
    have hord := toOrd_lt_of_dateLtB hr hvnb hlt
    rw [hres]
    simp only [mkAgeResult]
    exact ⟨hynn, hm1, hm2, hd1, hd2, by omega, by omega⟩

instance decEqExceptAgeResult : DecidableEq (Except String AgeResult)
  | Except.error a, Except.error c =>
    if h : a = c then isTrue (by rw [h])
    else isFalse (by intro hc; cases hc; exact h rfl)
  | Except.error _, Except.ok _ => isFalse (by intro hc; cases hc)
  | Except.ok _, Except.error _ => isFalse (by intro hc; cases hc)
  | Except.ok a, Except.ok c =>
    if h : a = c then isTrue (by rw [h])
    else isFalse (by intro hc; cases hc; exact h rfl)

/-- C7 witness: the bounds at birth 1990-08-20, reference 2025-09-09. -/
theorem claim_C7_result_bounds_witness :
    calculateAge ⟨1990, 8, 20⟩ ⟨2025, 9, 9⟩ =
      Except.ok (mkAgeResult ⟨1990, 8, 20⟩ ⟨2025, 9, 9⟩ ⟨2026, 8, 20⟩) ∧
    (0 ≤ (mkAgeResult ⟨1990, 8, 20⟩ ⟨2025, 9, 9⟩ ⟨2026, 8, 20⟩).years ∧
      0 ≤ (mkAgeResult ⟨1990, 8, 20⟩ ⟨2025, 9, 9⟩ ⟨2026, 8, 20⟩).months ∧
      (mkAgeResult ⟨1990, 8, 20⟩ ⟨2025, 9, 9⟩ ⟨2026, 8, 20⟩).months ≤ 11 ∧
      0 ≤ (mkAgeResult ⟨1990, 8, 20⟩ ⟨2025, 9, 9⟩ ⟨2026, 8, 20⟩).days ∧
      (mkAgeResult ⟨1990, 8, 20⟩ ⟨2025, 9, 9⟩ ⟨2026, 8, 20⟩).days ≤ 30 ∧
      0 ≤ (mkAgeResult ⟨1990, 8, 20⟩ ⟨2025, 9, 9⟩ ⟨2026, 8, 20⟩).total_days ∧
      0 ≤ (mkAgeResult ⟨1990, 8, 20⟩ ⟨2025, 9, 9⟩ ⟨2026, 8, 20⟩).next_birthday_in_days) :=
  ⟨by decide,
    claim_C7_result_bounds ⟨1990, 8, 20⟩ ⟨2025, 9, 9⟩ _ (by decide) (by decide) (by decide)⟩

/-- C5 (amended): `calculate_age` fails with the fixed future-birthday message
exactly when the birth date is strictly later than the reference date; for
birth ≤ reference it returns an `AgeResult`, except that when the reference
year is 9999 and the transplanted birthday precedes the reference, the
next-birthday computation overflows Python's maximum year and a different
`ValueError` escapes. -/
theorem claim_C5_future_error (b r : Date) (hb : validDate b) (hr : validDate r)
    (hy9 : r.year ≤ 9999) :
    (calculateAge b r = Except.error futureMsg ↔ dateLtB r b = true) ∧
    (dateLtB r b = false →
      (∃ res, calculateAge b r = Except.ok res) ∨
      (r.year = 9999 ∧ calculateAge b r = Except.error yearRangeMsg)) := by
  constructor
  · constructor
    · intro h
      by_contra hc
      have hle : dateLtB r b = false := by
        revert hc; cases dateLtB r b <;> simp
      unfold calculateAge at h
      rw [if_neg (by simp [hle])] at h
      by_cases h2 : dateLtB (transplantYear b r.year) r = true
      · rw [if_pos h2] at h
        by_cases h3 : r.year + 1 ≤ 9999
        · rw [if_pos h3] at h
          cases h
        · rw [if_neg h3] at h
          have hmsg : yearRangeMsg = futureMsg := Except.error.inj h
          exact absurd hmsg (by decide)
      · have h2f : dateLtB (transplantYear b r.year) r = false := by
          revert h2; cases dateLtB (transplantYear b r.year) r <;> simp
        rw [if_neg (by simp [h2f])] at h
        cases h
    · intro h
      unfold calculateAge
      rw [if_pos h]
  · intro hle
    unfold calculateAge
    rw [if_neg (by simp [hle])]
    by_cases h2 : dateLtB (transplantYear b r.year) r = true
    · rw [if_pos h2]
      by_cases h3 : r.year + 1 ≤ 9999
      · rw [if_pos h3]
        exact Or.inl ⟨_, rfl⟩
      · rw [if_neg h3]
        exact Or.inr ⟨by omega, rfl⟩
    · have h2f : dateLtB (transplantYear b r.year) r = false := by
        revert h2; cases dateLtB (transplantYear b r.year) r <;> simp
      rw [if_neg (by simp [h2f])]
      exact Or.inl ⟨_, rfl⟩

/-- C5 witness: the amended statement at birth 2000-01-01,
reference 2020-05-05. -/
theorem claim_C5_future_error_witness :
    ((calculateAge ⟨2000, 1, 1⟩ ⟨2020, 5, 5⟩ = Except.error futureMsg ↔
        dateLtB ⟨2020, 5, 5⟩ ⟨2000, 1, 1⟩ = true) ∧
      (dateLtB ⟨2020, 5, 5⟩ ⟨2000, 1, 1⟩ = false →
        (∃ res, calculateAge ⟨2000, 1, 1⟩ ⟨2020, 5, 5⟩ = Except.ok res) ∨
        ((2020 : Nat) = 9999 ∧
          calculateAge ⟨2000, 1, 1⟩ ⟨2020, 5, 5⟩ = Except.error yearRangeMsg))) :=
  claim_C5_future_error ⟨2000, 1, 1⟩ ⟨2020, 5, 5⟩ (by decide) (by decide) (by decide)

/-- C5 counterexample: with birth 9999-01-01 ≤ reference 9999-06-01,
`calculate_age` does not return an `AgeResult`: the year-10000 `ValueError`
from `date.replace` escapes instead of the future-birthday error. -/
theorem claim_C5_counterexample :
    validDate ⟨9999, 1, 1⟩ ∧ validDate ⟨9999, 6, 1⟩ ∧
    dateLtB ⟨9999, 6, 1⟩ ⟨9999, 1, 1⟩ = false ∧
    calculateAge ⟨9999, 1, 1⟩ ⟨9999, 6, 1⟩ = Except.error yearRangeMsg ∧
    yearRangeMsg ≠ futureMsg := by decide

/-- C8: whenever `calculate_age` returns a result for valid dates,
`next_birthday_in_days` is the day count from the reference date to the
spec-described target (birth month/day transplanted onto the reference year if
on or after the reference, otherwise onto the next year, with the Feb-29 →
Feb-28 substitution), and it is zero exactly when the reference equals that
target. -/
theorem claim_C8_next_birthday (b r : Date) (res : AgeResult) (hb : validDate b)
    (hr : validDate r) (hok : calculateAge b r = Except.ok res) :
    res.next_birthday_in_days = (toOrd (specNextBirthday b r) : Int) - toOrd r ∧
    (res.next_birthday_in_days = 0 ↔ r = specNextBirthday b r) := by
  have hsp1 := transplantYear_eq_spec hb r.year
  have hsp2 := transplantYear_eq_spec hb (r.year + 1)
  have hry : 1 ≤ r.year := hr.1
  obtain ⟨hle, hcases⟩ := calculateAge_ok_cases hok
  rcases hcases with ⟨h2f, hres⟩ | ⟨h2t, h3, hres⟩
  · have hspb : specNextBirthday b r = specAnniversary b r.year := by
      unfold specNextBirthday
      rw [if_pos (by rw [← hsp1]; exact h2f)]
    have hvnb : validDate (transplantYear b r.year) :=
      transplantYear_valid hb _ (by omega)
    have hord := toOrd_le_of_not_lt hvnb hr h2f
    rw [hres]
    simp only [mkAgeResult]
    rw [hspb, ← hsp1]
    refine ⟨rfl, ?_, ?_⟩
    · intro h0
      exact (toOrd_inj hr hvnb (by omega)).symm.symm
    · intro heq
      rw [← heq]
      omega
  · have hspb : specNextBirthday b r = specAnniversary b (r.year + 1) := by
      unfold specNextBirthday
      rw [if_neg (by rw [← hsp1, h2t]; simp)]
    have hvnb : validDate (transplantYear b (r.year + 1)) :=
      transplantYear_valid hb _ (by omega)
    have hlt : dateLtB r (transplantYear b (r.year + 1)) = true := by
      have hyy := transplantYear_year b (r.year + 1)
      simp only [dateLtB, hyy, Bool.or_eq_true, decide_eq_true_eq]
      left
      omega
    have hord := toOrd_lt_of_dateLtB hr hvnb hlt
    rw [hres]
    simp only [mkAgeResult]
    rw [hspb, ← hsp2]
    refine ⟨rfl, ?_, ?_⟩
    · intro h0
      exfalso
      omega
    · intro heq
      exfalso
      have hyy := transplantYear_year b (r.year + 1)
      have hre : r.year = (transplantYear b (r.year + 1)).year := by rw [← heq]
      omega

/-- C8 witness: the next-birthday characterization at birth 1990-08-20,
reference 2025-09-09. -/
theorem claim_C8_next_birthday_witness :
    calculateAge ⟨1990, 8, 20⟩ ⟨2025, 9, 9⟩ =
      Except.ok (mkAgeResult ⟨1990, 8, 20⟩ ⟨2025, 9, 9⟩ ⟨2026, 8, 20⟩) ∧
    ((mkAgeResult ⟨1990, 8, 20⟩ ⟨2025, 9, 9⟩ ⟨2026, 8, 20⟩).next_birthday_in_days =
        (toOrd (specNextBirthday ⟨1990, 8, 20⟩ ⟨2025, 9, 9⟩) : Int) - toOrd ⟨2025, 9, 9⟩ ∧
      ((mkAgeResult ⟨1990, 8, 20⟩ ⟨2025, 9, 9⟩ ⟨2026, 8, 20⟩).next_birthday_in_days = 0 ↔
        (⟨2025, 9, 9⟩ : Date) = specNextBirthday ⟨1990, 8, 20⟩ ⟨2025, 9, 9⟩)) :=
  ⟨by decide,
    claim_C8_next_birthday ⟨1990, 8, 20⟩ ⟨2025, 9, 9⟩ _ (by decide) (by decide) (by decide)⟩

/- ### DateParser (`DateParser.parse_date`)

Strings are modelled as `List Char`.  Python's Unicode-aware `str.lower`,
`str.title`, `str.strip` and the `re` character classes are modelled on
ASCII, which is exact for every character class the parser's regexes use
and for all strings reasoned about below. -/

def isDigitB (c : Char) : Bool := 48 ≤ c.toNat && c.toNat ≤ 57

def isAlphaA (c : Char) : Bool :=
  (65 ≤ c.toNat && c.toNat ≤ 90) || (97 ≤ c.toNat && c.toNat ≤ 122)

def toLowerA (c : Char) : Char :=
  if 65 ≤ c.toNat && c.toNat ≤ 90 then Char.ofNat (c.toNat + 32) else c

def toUpperA (c : Char) : Char :=
  if 97 ≤ c.toNat && c.toNat ≤ 122 then Char.ofNat (c.toNat - 32) else c

/-- Whitespace class of `str.strip` and the regex `\s` (ASCII part). -/
def isSpaceB (c : Char) : Bool :=
  c = ' ' || c = '\t' || c = '\n' || c = '\r' || c = '\x0b' || c = '\x0c'

def lowerL (s : List Char) : List Char := s.map toLowerA

/-- Model of `str.title`: the first letter of each letter-run uppercased,
subsequent letters lowercased. -/
def titleGo : List Char → Bool → List Char
  | [], _ => []
  | c :: rest, prevAlpha =>
    (if isAlphaA c then (if prevAlpha then toLowerA c else toUpperA c) else c) ::
      titleGo rest (isAlphaA c)

def titleCase (s : List Char) : List Char := titleGo s false

/-- Model of `str.strip()`. -/
def trimL (s : List Char) : List Char :=
  ((s.dropWhile isSpaceB).reverse.dropWhile isSpaceB).reverse

def allDigits (s : List Char) : Bool := s.all isDigitB

/-- Value of a digit string, as Python `int()` on an all-digit string. -/
def digitsVal (s : List Char) : Nat :=
  s.foldl (fun a c => a * 10 + (c.toNat - 48)) 0

/-- Case-insensitive comparison of a pattern with the start of a string. -/
def ciStarts : List Char → List Char → Bool
  | [], _ => true
  | _ :: _, [] => false
  | p :: ps, c :: cs => (toLowerA p == toLowerA c) && ciStarts ps cs

/- #### Conversion from ordinals (CPython `datetime._ord2ymd`) -/

/-- Finds the month and day of a 0-based day of year by scanning months
(equivalent to CPython's estimate-and-correct step in `_ord2ymd`). -/
def mdOfDoy (year : Nat) : Nat → Nat → Nat → Date
  | 0, m, doy0 => ⟨year, m, doy0 + 1⟩
  | fuel + 1, m, doy0 =>
    if doy0 < daysInMonth year m then ⟨year, m, doy0 + 1⟩
    else mdOfDoy year fuel (m + 1) (doy0 - daysInMonth year m)

/-- Model of `datetime.date.fromordinal` via CPython's `_ord2ymd` divmod
chain over the 400/100/4/1-year cycles, with its year-boundary corrections. -/
def ord2ymd (n : Nat) : Date :=
  let n0 := n - 1
  let n400 := n0 / 146097
  let r400 := n0 % 146097
  let n100 := r400 / 36524
  let r100 := r400 % 36524
  let n4 := r100 / 1461
  let r4 := r100 % 1461
  let n1 := r4 / 365
  let r1 := r4 % 365
  let year := 400 * n400 + 100 * n100 + 4 * n4 + n1 + 1
  if n1 = 4 ∨ n100 = 4 then ⟨year - 1, 12, 31⟩
  else mdOfDoy year 11 1 r1

/-- Largest ordinal representable by `datetime.date` (9999-12-31). -/
def maxOrdinal : Nat := toOrd ⟨9999, 12, 31⟩

/-- Model of `today ± timedelta(days=k)`.  Python raises `OverflowError`
outside the `date` range; no result is modelled as `none` there (the claims
never touch that case). -/
def ordOffset (td : Date) (k : Int) : Option Date :=
  let o : Int := (toOrd td : Int) + k
  if 1 ≤ o ∧ o ≤ (maxOrdinal : Int) then some (ord2ymd o.toNat) else none

/- #### Preprocessing -/

/-- The alternatives of `DAY_NAME_REGEX`, in regex order. -/
def dayNamesList : List String :=
  ["Monday", "Tuesday", "Wednesday", "Thursday", "Friday", "Saturday", "Sunday",
   "Mon", "Tue", "Wed", "Thu", "Fri", "Sat", "Sun"]

/-- Model of `DAY_NAME_REGEX.sub("", s)`: strips a leading weekday name
(case-insensitive, first alternative that matches), an optional comma, and
following whitespace. -/
def stripDayName (s : List Char) : List Char :=
  match dayNamesList.findSome? (fun n =>
      if ciStarts n.toList s then some n.toList.length else none) with
  | none => s
  | some k =>
    let rest := s.drop k
    let rest2 := match rest with
      | ',' :: t => t
      | _ => rest
    rest2.dropWhile isSpaceB

/-- Model of `clean_str.replace("T", " ")`. -/
def replaceT (s : List Char) : List Char :=
  s.map (fun c => if c = 'T' then ' ' else c)

/- #### Strategy: relative keywords -/

/-- The `relative_dates` table of `_get_relative_date`, as day offsets from
today (`last/next month` are the fixed 30-day, `last/next year` the fixed
365-day approximations of the source). -/
def relativeKeys : List (String × Int) :=
  [("today", 0), ("yesterday", -1), ("tomorrow", 1),
   ("last week", -7), ("next week", 7),
   ("last month", -30), ("next month", 30),
   ("last year", -365), ("next year", 365), ("now", 0)]

def getRelativeDate (td : Date) (s : List Char) : Option Date :=
  match relativeKeys.findSome? (fun kv =>
      if s = kv.1.toList then some kv.2 else none) with
  | none => none
  | some k => ordOffset td k

/- #### Strategy: Unix timestamp -/

/-- Ordinal of the Unix epoch 1970-01-01. -/
def epochOrdinal : Nat := toOrd ⟨1970, 1, 1⟩

/-- Model of `_parse_unix_timestamp`: `UNIX_TIMESTAMP_REGEX` accepts `0` or
9-10 digits; values up to 4102444800 are converted in UTC
(`fromtimestamp(ts, timezone.utc).date()` = epoch + ts // 86400 days). -/
def parseUnixTimestamp (s : List Char) : Option Date :=
  if s = ['0'] ∨ (9 ≤ s.length ∧ s.length ≤ 10 ∧ allDigits s) then
    let ts := digitsVal s
    if ts ≤ 4102444800 then some (ord2ymd (epochOrdinal + ts / 86400)) else none
  else none

/- #### Strategy: Julian day of year -/

/-- Model of `_parse_julian`: `JULIAN_DATE_REGEX` is `^(\d{4})-(\d{1,3})$`;
the day of year must lie in [1, 365] ([1, 366] in leap years); the result is
`date(year, 1, 1) + timedelta(days=doy - 1)` (which stays inside the year, so
it never overflows); `date(0, 1, 1)` would raise and is swallowed to `None`. -/
def parseJulian (s : List Char) : Option Date :=
  if (s.take 4).length = 4 ∧ allDigits (s.take 4) then
    if (s.drop 4).head? = some '-' then
      if 1 ≤ (s.drop 4).tail.length ∧ (s.drop 4).tail.length ≤ 3 ∧
          allDigits (s.drop 4).tail then
        if 1 ≤ digitsVal (s.drop 4).tail ∧
            digitsVal (s.drop 4).tail ≤
              (if isleap (digitsVal (s.take 4)) then 366 else 365) then
          if 1 ≤ digitsVal (s.take 4) then
            some (ord2ymd (toOrd ⟨digitsVal (s.take 4), 1, 1⟩ +
              (digitsVal (s.drop 4).tail - 1)))
          else none
        else none
      else none
    else none
  else none

/- #### Strategy: Excel serial -/

/-- Ordinal of the Excel epoch 1899-12-31. -/
def excelEpochOrdinal : Nat := toOrd ⟨1899, 12, 31⟩

/-- Model of `_parse_excel_serial`: 1-7 digits but never exactly 6; a 4-digit
value in the plausible-year range falls through; serial in [1, 2958465];
serials ≥ 60 lose one day for Excel's fictitious 1900 leap day. -/
def parseExcelSerial (s : List Char) : Option Date :=
  if ¬ (1 ≤ s.length ∧ s.length ≤ 7 ∧ allDigits s) ∨ s.length = 6 then none
  else
    let serial := digitsVal s
    if s.length = 4 ∧ 1900 ≤ serial ∧ serial ≤ 2100 then none
    else if ¬ (1 ≤ serial ∧ serial ≤ 2958465) then none
    else some (ord2ymd (excelEpochOrdinal + (if 60 ≤ serial then serial - 1 else serial)))

/- #### Strategy: fiscal quarter -/

def quarterStartMonth (q : Nat) : Nat :=
  if q = 1 then 1 else if q = 2 then 4 else if q = 3 then 7 else 10

/-- Model of `_parse_fiscal_quarter`: `^(\d{4})[-\s]?Q([1-4])$`
(case-insensitive `Q`), resolving to the first day of the quarter;
`date(0, m, 1)` would raise and is swallowed to `None`. -/
def parseFiscalQuarter (s : List Char) : Option Date :=
  let y4 := s.take 4
  if y4.length = 4 ∧ allDigits y4 then
    match s.drop 4 with
    | [] => none
    | c :: t =>
      let tail := if c = '-' ∨ isSpaceB c then t else c :: t
      match tail with
      | [q, dq] =>
        if toLowerA q = 'q' ∧ ('1' = dq ∨ '2' = dq ∨ '3' = dq ∨ '4' = dq) then
          if 1 ≤ digitsVal y4 then
            some ⟨digitsVal y4, quarterStartMonth (dq.toNat - 48), 1⟩
          else none
        else none
      | _ => none
  else none

/- #### Backtracking primitives for the regex-based strategies

Each primitive lists the possible (consumed, rest) splits in the order the
`re` engine tries them (alternation order, greedy quantifiers longest first);
`findSome?` over such a list is the leftmost backtracking match. -/

/-- Rests after consuming one or more whitespace characters (`\s+`),
longest consumption first. -/
def wsSplits (s : List Char) : List (List Char) :=
  let k := (s.takeWhile isSpaceB).length
  (List.range k).map (fun i => s.drop (k - i))

/-- Splits for `\d{1,2}` (greedy: two digits before one). -/
def digits12 (s : List Char) : List (List Char × List Char) :=
  match s with
  | a :: b :: t =>
    (if isDigitB a && isDigitB b then [([a, b], t)] else []) ++
      (if isDigitB a then [([a], b :: t)] else [])
  | [a] => if isDigitB a then [([a], [])] else []
  | [] => []

/-- Rests after an ordinal suffix `st|nd|rd|th` (case-insensitive). -/
def suffixSplits (s : List Char) : List (List Char) :=
  match s with
  | a :: b :: t =>
    [('s', 't'), ('n', 'd'), ('r', 'd'), ('t', 'h')].filterMap (fun p =>
      if toLowerA a = p.1 ∧ toLowerA b = p.2 then some t else none)
  | _ => []

/-- Splits for `[a-zA-Z]+` (greedy: maximal run first). -/
def letterSplits (s : List Char) : List (List Char × List Char) :=
  let k := (s.takeWhile isAlphaA).length
  (List.range k).map (fun i => (s.take (k - i), s.drop (k - i)))

/-- Exactly four digits (`\d{4}`). -/
def take4digits (s : List Char) : Option (List Char × List Char) :=
  let d4 := s.take 4
  if d4.length = 4 ∧ allDigits d4 then some (d4, s.drop 4) else none

/- #### Strategy: special formats (`_parse_special_formats`) -/

/-- Model of `DAY_OF_MONTH_REGEX.match`: prefix match of
`(\d{1,2})(?:st|nd|rd|th)?\s+of\s+([a-zA-Z]+)\s+(\d{4})`, returning the
captured day digits, month word and year digits of the first match in
backtracking order. -/
def dayOfMonthMatch (s : List Char) : Option (List Char × List Char × List Char) :=
  (digits12 s).findSome? (fun dr =>
    ((suffixSplits dr.2 ++ [dr.2]).findSome? (fun r2 =>
      (wsSplits r2).findSome? (fun r3 =>
        match r3 with
        | o :: f :: r4 =>
          if toLowerA o = 'o' ∧ toLowerA f = 'f' then
            (wsSplits r4).findSome? (fun r5 =>
              (letterSplits r5).findSome? (fun mr =>
                (wsSplits mr.2).findSome? (fun r7 =>
                  match take4digits r7 with
                  | some (y4, _) => some (dr.1, mr.1, y4)
                  | none => none)))
          else none
        | _ => none))))

/-- A match of `ORDINAL_SUFFIX_REGEX` = `(\d{1,2})(st|nd|rd|th)` at the start
of the string: the digits and the rest after the suffix. -/
def ordSuffixAt (s : List Char) : Option (List Char × List Char) :=
  (digits12 s).findSome? (fun dr =>
    match suffixSplits dr.2 with
    | r2 :: _ => some (dr.1, r2)
    | [] => none)

/-- Model of `ORDINAL_SUFFIX_REGEX.sub(r"\1", s)`: replaces each
non-overlapping leftmost match by its digits. -/
def subOrdinalsGo : Nat → List Char → List Char
  | 0, s => s
  | _ + 1, [] => []
  | fuel + 1, c :: t =>
    match ordSuffixAt (c :: t) with
    | some (ds, rest) => ds ++ subOrdinalsGo fuel rest
    | none => c :: subOrdinalsGo fuel t

def subOrdinals (s : List Char) : List Char := subOrdinalsGo s.length s

/-- Model of `ORDINAL_SUFFIX_REGEX.search`. -/
def hasOrdinal : List Char → Bool
  | [] => false
  | c :: t => (ordSuffixAt (c :: t)).isSome || hasOrdinal t

/- #### CPython `strptime` model

`_strptime` compiles a format into a regex (`TimeRE`, `re.IGNORECASE`):
whitespace runs become `\s+`, other literals are escaped, and each directive
becomes the character class given in `TimeRE`'s table.  `re.match` finds the
leftmost prefix match; leftover input raises `ValueError`; finally the
datetime constructor validates the extracted fields. -/

inductive FTok where
  | lit : Char → FTok
  | ws : FTok
  | dY : FTok
  | dy : FTok
  | dm : FTok
  | dd : FTok
  | dH : FTok
  | dI : FTok
  | dMin : FTok
  | dS : FTok
  | dFrac : FTok
  | dZone : FTok
  | dG : FTok
  | dV : FTok
  | dU : FTok
  | dB : FTok
  | dBAbbr : FTok
  | dA : FTok
  | dAAbbr : FTok
  | dP : FTok
  | bad : FTok
  deriving DecidableEq, Repr

def compileFmt : List Char → List FTok
  | [] => []
  | '%' :: c :: rest =>
    (match c with
     | 'Y' => FTok.dY
     | 'y' => FTok.dy
     | 'm' => FTok.dm
     | 'd' => FTok.dd
     | 'H' => FTok.dH
     | 'I' => FTok.dI
     | 'M' => FTok.dMin
     | 'S' => FTok.dS
     | 'f' => FTok.dFrac
     | 'z' => FTok.dZone
     | 'G' => FTok.dG
     | 'V' => FTok.dV
     | 'u' => FTok.dU
     | 'B' => FTok.dB
     | 'b' => FTok.dBAbbr
     | 'A' => FTok.dA
     | 'a' => FTok.dAAbbr
     | 'p' => FTok.dP
     | _ => FTok.bad) :: compileFmt rest
  | c :: rest => (if isSpaceB c then FTok.ws else FTok.lit c) :: compileFmt rest

/-- Fields extracted by `strptime` that influence the resulting date. -/
structure StFields where
  fy : Option Nat := none
  fm : Option Nat := none
  fd : Option Nat := none
  fG : Option Nat := none
  fV : Option Nat := none
  fu : Option Nat := none
  deriving DecidableEq, Repr

def d2val (a b : Char) : Nat := (a.toNat - 48) * 10 + (b.toNat - 48)

def d1val (a : Char) : Nat := a.toNat - 48

/-- Alternatives of `%m` = `1[0-2]|0[1-9]|[1-9]` (also the class of `%I`). -/
def mAlts (s : List Char) : List (Nat × List Char) :=
  match s with
  | a :: b :: t =>
    (if a = '1' ∧ ('0' ≤ b ∧ b ≤ '2') then [(d2val a b, t)] else []) ++
      (if a = '0' ∧ ('1' ≤ b ∧ b ≤ '9') then [(d2val a b, t)] else []) ++
      (if '1' ≤ a ∧ a ≤ '9' then [(d1val a, b :: t)] else [])
  | [a] => if '1' ≤ a ∧ a ≤ '9' then [(d1val a, [])] else []
  | [] => []

/-- Alternatives of `%d` = `3[01]|[12]\d|0[1-9]|[1-9]`. -/
def dAlts (s : List Char) : List (Nat × List Char) :=
  match s with
  | a :: b :: t =>
    (if a = '3' ∧ ('0' ≤ b ∧ b ≤ '1') then [(d2val a b, t)] else []) ++
      (if ('1' ≤ a ∧ a ≤ '2') ∧ isDigitB b then [(d2val a b, t)] else []) ++
      (if a = '0' ∧ ('1' ≤ b ∧ b ≤ '9') then [(d2val a b, t)] else []) ++
      (if '1' ≤ a ∧ a ≤ '9' then [(d1val a, b :: t)] else [])
  | [a] => if '1' ≤ a ∧ a ≤ '9' then [(d1val a, [])] else []
  | [] => []

/-- Alternatives of `%H` = `2[0-3]|[0-1]\d|\d`. -/
def hAlts (s : List Char) : List (Nat × List Char) :=
  match s with
  | a :: b :: t =>
    (if a = '2' ∧ ('0' ≤ b ∧ b ≤ '3') then [(d2val a b, t)] else []) ++
      (if ('0' ≤ a ∧ a ≤ '1') ∧ isDigitB b then [(d2val a b, t)] else []) ++
      (if isDigitB a then [(d1val a, b :: t)] else [])
  | [a] => if isDigitB a then [(d1val a, [])] else []
  | [] => []

/-- Alternatives of `%M` = `[0-5]\d|\d`. -/
def minAlts (s : List Char) : List (Nat × List Char) :=
  match s with
  | a :: b :: t =>
    (if ('0' ≤ a ∧ a ≤ '5') ∧ isDigitB b then [(d2val a b, t)] else []) ++
      (if isDigitB a then [(d1val a, b :: t)] else [])
  | [a] => if isDigitB a then [(d1val a, [])] else []
  | [] => []

/-- Alternatives of `%S` = `6[0-1]|[0-5]\d|\d`. -/
def sAlts (s : List Char) : List (Nat × List Char) :=
  match s with
  | a :: b :: t =>
    (if a = '6' ∧ ('0' ≤ b ∧ b ≤ '1') then [(d2val a b, t)] else []) ++
      (if ('0' ≤ a ∧ a ≤ '5') ∧ isDigitB b then [(d2val a b, t)] else []) ++
      (if isDigitB a then [(d1val a, b :: t)] else [])
  | [a] => if isDigitB a then [(d1val a, [])] else []
  | [] => []

/-- Alternatives of `%V` = `5[0-3]|0[1-9]|[1-4]\d|\d`. -/
def vAlts (s : List Char) : List (Nat × List Char) :=
  match s with
  | a :: b :: t =>
    (if a = '5' ∧ ('0' ≤ b ∧ b ≤ '3') then [(d2val a b, t)] else []) ++
      (if a = '0' ∧ ('1' ≤ b ∧ b ≤ '9') then [(d2val a b, t)] else []) ++
      (if ('1' ≤ a ∧ a ≤ '4') ∧ isDigitB b then [(d2val a b, t)] else []) ++
      (if isDigitB a then [(d1val a, b :: t)] else [])
  | [a] => if isDigitB a then [(d1val a, [])] else []
  | [] => []

/-- Rests for `[0-9]{1,6}` (greedy), as used by `%f`. -/
def fracSplits (s : List Char) : List (List Char) :=
  let k := min 6 (s.takeWhile isDigitB).length
  (List.range k).map (fun i => s.drop (k - i))

/-- Rests for `:?` (greedy: with the colon first). -/
def colonOpt (s : List Char) : List (List Char) :=
  (match s with
   | ':' :: t => [t]
   | _ => []) ++ [s]

/-- Rests for `%z` = `[+-]\d\d:?[0-5]\d(:?[0-5]\d(\.\d{1,6})?)?|(?-i:Z)`. -/
def zSplits (s : List Char) : List (List Char) :=
  (match s with
   | sgn :: a :: b :: rest =>
     if (sgn = '+' ∨ sgn = '-') ∧ isDigitB a ∧ isDigitB b then
       (colonOpt rest).flatMap (fun r1 =>
         match r1 with
         | c :: d :: r2 =>
           if ('0' ≤ c ∧ c ≤ '5') ∧ isDigitB d then
             ((colonOpt r2).flatMap (fun r3 =>
               match r3 with
               | e :: f :: r4 =>
                 if ('0' ≤ e ∧ e ≤ '5') ∧ isDigitB f then
                   (match r4 with
                    | '.' :: r5 => fracSplits r5
                    | _ => []) ++ [r4]
                 else []
               | _ => [])) ++ [r2]
           else []
         | _ => [])
     else []
   | _ => []) ++
    (match s with
     | 'Z' :: t => [t]
     | _ => [])

/-- Month names of the C locale (`LocaleTime.f_month`), sorted longest first
as `TimeRE.__seqToRE` does, with their month numbers. -/
def monthFullAlts : List (List Char × Nat) :=
  [("september".toList, 9), ("february".toList, 2), ("november".toList, 11),
   ("december".toList, 12), ("january".toList, 1), ("october".toList, 10),
   ("august".toList, 8), ("march".toList, 3), ("april".toList, 4),
   ("june".toList, 6), ("july".toList, 7), ("may".toList, 5)]

/-- Abbreviated month names (`LocaleTime.a_month`), all of length 3. -/
def monthAbbrAlts : List (List Char × Nat) :=
  [("jan".toList, 1), ("feb".toList, 2), ("mar".toList, 3), ("apr".toList, 4),
   ("may".toList, 5), ("jun".toList, 6), ("jul".toList, 7), ("aug".toList, 8),
   ("sep".toList, 9), ("oct".toList, 10), ("nov".toList, 11), ("dec".toList, 12)]

/-- Full weekday names, sorted longest first (values unused). -/
def dayFullAlts : List (List Char × Nat) :=
  [("wednesday".toList, 3), ("thursday".toList, 4), ("saturday".toList, 6),
   ("tuesday".toList, 2), ("monday".toList, 1), ("friday".toList, 5),
   ("sunday".toList, 7)]

/-- Abbreviated weekday names (values unused). -/
def dayAbbrAlts : List (List Char × Nat) :=
  [("mon".toList, 1), ("tue".toList, 2), ("wed".toList, 3), ("thu".toList, 4),
   ("fri".toList, 5), ("sat".toList, 6), ("sun".toList, 7)]

/-- AM/PM markers (values unused). -/
def ampmAlts : List (List Char × Nat) :=
  [("am".toList, 0), ("pm".toList, 1)]

/-- Case-insensitive name-list matching (the lists above are prefix-free, so
at most one alternative applies). -/
def nameAlts (names : List (List Char × Nat)) (s : List Char) :
    List (Nat × List Char) :=
  names.filterMap (fun nv =>
    if ciStarts nv.1 s then some (nv.2, s.drop nv.1.length) else none)

/-- CPython's `%y` century pivot: 0-68 → 2000s, 69-99 → 1900s. -/
def strptimePivot (v : Nat) : Nat := if v ≤ 68 then 2000 + v else 1900 + v

def matchTok (t : FTok) (f : StFields) (s : List Char) :
    List (StFields × List Char) :=
  match t with
  | FTok.lit c =>
    match s with
    | x :: rest => if toLowerA x = toLowerA c then [(f, rest)] else []
    | [] => []
  | FTok.ws => (wsSplits s).map (fun r => (f, r))
  | FTok.dY =>
    match take4digits s with
    | some (ds, rest) => [({ f with fy := some (digitsVal ds) }, rest)]
    | none => []
  | FTok.dG =>
    match take4digits s with
    | some (ds, rest) => [({ f with fG := some (digitsVal ds) }, rest)]
    | none => []
  | FTok.dy =>
    match s with
    | a :: b :: rest =>
      if isDigitB a ∧ isDigitB b then
        [({ f with fy := some (strptimePivot (d2val a b)) }, rest)]
      else []
    | _ => []
  | FTok.dm => (mAlts s).map (fun vr => ({ f with fm := some vr.1 }, vr.2))
  | FTok.dd => (dAlts s).map (fun vr => ({ f with fd := some vr.1 }, vr.2))
  | FTok.dB => (nameAlts monthFullAlts s).map (fun vr => ({ f with fm := some vr.1 }, vr.2))
  | FTok.dBAbbr => (nameAlts monthAbbrAlts s).map (fun vr => ({ f with fm := some vr.1 }, vr.2))
  | FTok.dV => (vAlts s).map (fun vr => ({ f with fV := some vr.1 }, vr.2))
  | FTok.dU =>
    match s with
    | a :: rest => if '1' ≤ a ∧ a ≤ '7' then [({ f with fu := some (d1val a) }, rest)] else []
    | [] => []
  | FTok.dH => (hAlts s).map (fun vr => (f, vr.2))
  | FTok.dI => (mAlts s).map (fun vr => (f, vr.2))
  | FTok.dMin => (minAlts s).map (fun vr => (f, vr.2))
  | FTok.dS => (sAlts s).map (fun vr => (f, vr.2))
  | FTok.dFrac => (fracSplits s).map (fun r => (f, r))
  | FTok.dZone => (zSplits s).map (fun r => (f, r))
  | FTok.dA => (nameAlts dayFullAlts s).map (fun vr => (f, vr.2))
  | FTok.dAAbbr => (nameAlts dayAbbrAlts s).map (fun vr => (f, vr.2))
  | FTok.dP => (nameAlts ampmAlts s).map (fun vr => (f, vr.2))
  | FTok.bad => []

/-- All prefix matches of a compiled format, in backtracking order. -/
def matchToks : List FTok → StFields → List Char → List (StFields × List Char)
  | [], f, s => [(f, s)]
  | t :: ts, f, s => (matchTok t f s).flatMap (fun fs => matchToks ts fs.1 fs.2)

/-- Model of `date.fromisocalendar`-style construction in `_strptime`
(`_calc_julian_from_V`): day-of-year from ISO year/week/weekday via the
weekday of January 4, then an absolute ordinal. -/
def isoWeekDate (g v u : Nat) : Option Date :=
  if 1 ≤ g ∧ g ≤ 9999 then
    let jan4 := toOrd ⟨g, 1, 4⟩
    let iwd := (jan4 - 1) % 7 + 1
    let o : Int := (toOrd ⟨g, 1, 1⟩ : Int) - 1 + ((v * 7 + u : Nat) : Int) - (iwd + 3)
    if 1 ≤ o ∧ o ≤ (maxOrdinal : Int) then some (ord2ymd o.toNat) else none
  else none

/-- Final field validation of `strptime`: ISO directives must occur together;
otherwise year (default 1900), month and day (default 1) must form a valid
`datetime`. -/
def buildDate (f : StFields) : Option Date :=
  match f.fG, f.fV, f.fu with
  | some g, some v, some u => isoWeekDate g v u
  | none, none, none =>
    let y := f.fy.getD 1900
    let m := f.fm.getD 1
    let d := f.fd.getD 1
    if 1 ≤ y ∧ y ≤ 9999 ∧ 1 ≤ m ∧ m ≤ 12 ∧ 1 ≤ d ∧ d ≤ daysInMonth y m then
      some ⟨y, m, d⟩
    else none
  | _, _, _ => none

/-- Model of `_try_strptime(s, fmt).date()`: first prefix match, full
consumption required, then field validation. -/
def tryStrptime (s : List Char) (fmt : String) : Option Date :=
  match (matchToks (compileFmt fmt.toList) {} s).head? with
  | some (f, rest) => if rest = [] then buildDate f else none
  | none => none

/- #### Format tables and the cascade -/

/-- The `DATE_FORMATS` table, in source order. -/
def DATE_FORMATS : List String :=
  ["%Y-%m-%d",
   "%Y/%m/%d",
   "%Y.%m.%d",
   "%Y %m %d",
   "%m/%d/%Y",
   "%m-%d-%Y",
   "%m.%d.%Y",
   "%m %d %Y",
   "%d/%m/%Y",
   "%d-%m-%Y",
   "%d.%m.%Y",
   "%d %m %Y",
   "%B %d, %Y",
   "%b %d, %Y",
   "%d %B, %Y",
   "%d %b, %Y",
   "%B %d %Y",
   "%b %d %Y",
   "%d %B %Y",
   "%d %b %Y",
   "%d-%B-%Y",
   "%d-%b-%Y",
   "%B-%d-%Y",
   "%b-%d-%Y",
   "%Y %B %d",
   "%Y %b %d",
   "%Y, %B %d",
   "%Y, %b %d",
   "%m/%d/%y",
   "%m-%d-%y",
   "%m.%d.%y",
   "%d/%m/%y",
   "%d-%m-%y",
   "%d.%m.%y",
   "%y/%m/%d",
   "%y-%m-%d",
   "%y.%m.%d",
   "%m %d %y",
   "%d %m %y",
   "%y %m %d",
   "%G-W%V-%u",
   "%Y-%m-%d %H:%M:%S",
   "%Y-%m-%d %H:%M",
   "%Y-%m-%d %H:%M:%S.%f",
   "%Y-%m-%d %H:%M:%S.%fZ",
   "%Y-%m-%dT%H:%M:%S",
   "%Y-%m-%dT%H:%M:%S.%f",
   "%Y-%m-%dT%H:%M:%SZ",
   "%Y-%m-%dT%H:%M",
   "%Y/%m/%d %H:%M:%S",
   "%m/%d/%Y %I:%M:%S %p",
   "%m/%d/%Y %I:%M %p",
   "%d-%m-%Y %H:%M:%S",
   "%d-%m-%Y %H:%M",
   "%d/%m/%Y %H:%M:%S",
   "%d/%m/%Y %H:%M",
   "%a, %d %b %Y %H:%M:%S",
   "%a %b %d %H:%M:%S %Y",
   "%a %d %b %Y",
   "%B %Y",
   "%b %Y",
   "%Y-%m",
   "%m/%Y",
   "%m-%Y",
   "%m.%Y",
   "%Y %B",
   "%Y %b",
   "%B, %Y",
   "%d%b%Y",
   "%Y%b%d",
   "%d%m%Y",
   "%Y%m%d",
   "%Y年%m月%d日",
   "%Y년 %m월 %d일",
   "%d %B %Y г.",
   "%d de %B de %Y",
   "%d. %B %Y",
   "%d %b. %Y",
   "%d de %b de %Y",
   "%d. %b %Y",
   "%Y-%m-%d %H:%M:%S.%f+00:00",
   "%Y%m%d %H:%M:%S",
   "%Y-%m-%d %H:%M:%S%z",
   "%Y-%m-%dT%H:%M:%S%z",
   "%Y-%m-%dT%H:%M:%S.%fZ",
   "%Y%m%d%H%M%S",
   "%d/%b/%Y:%H:%M:%S",
   "%Y-%m-%d %H:%M:%S,%f",
   "%d.%m.%Y %H:%M:%S",
   "%Y/%m/%d %H:%M",
   "%Y"]

/-- The `NATURAL_FORMATS` table, in source order. -/
def NATURAL_FORMATS : List String :=
  ["%B %d, %Y",
   "%b %d, %Y",
   "%d %B, %Y",
   "%d %b, %Y",
   "%B %d %Y",
   "%b %d %Y",
   "%d %B %Y",
   "%d %b %Y"]

def startsWithL : List Char → List Char → Bool
  | [], _ => true
  | _ :: _, [] => false
  | p :: ps, c :: cs => p = c && startsWithL ps cs

def containsSub (pat : List Char) : List Char → Bool
  | [] => startsWithL pat []
  | c :: t => startsWithL pat (c :: t) || containsSub pat t

/-- Model of `any(marker in fmt.lower() for marker in ["%d", "%j", "%u"])`. -/
def hasDayDirective (fmt : String) : Bool :=
  let fl := lowerL fmt.toList
  containsSub "%d".toList fl || containsSub "%j".toList fl ||
    containsSub "%u".toList fl

/-- The bounds check `_validate_date_bounds` applied to every strategy
result before `parse_date` returns it. -/
def validateDateBounds (d : Date) : Option Date :=
  if 1900 ≤ d.year ∧ d.year ≤ 2100 then some d else none

/-- The `for fmt in DATE_FORMATS` loop of `parse_date`: first structural
match wins; without a day marker the day is reset to 1; the result is
bounds-checked and returned immediately. -/
def formatLoop : List String → List Char → Option Date
  | [], _ => none
  | fmt :: rest, s =>
    match tryStrptime s fmt with
    | some d =>
      validateDateBounds (if hasDayDirective fmt then d else ⟨d.year, d.month, 1⟩)
    | none => formatLoop rest s

/-- First natural-language format that parses (used by
`_parse_special_formats`, results not yet bounds-checked there). -/
def tryNaturalFormats : List String → List Char → Option Date
  | [], _ => none
  | fmt :: rest, s =>
    match tryStrptime s fmt with
    | some d => some d
    | none => tryNaturalFormats rest s

/-- Model of `_parse_special_formats`: the `day of month year` reshaping,
then the ordinal-suffix stripping, each tried against `NATURAL_FORMATS`. -/
def parseSpecialFormats (s : List Char) : Option Date :=
  match (match dayOfMonthMatch s with
         | some (dd, mw, y4) =>
           tryNaturalFormats NATURAL_FORMATS (dd ++ ' ' :: (mw ++ ' ' :: y4))
         | none => none) with
  | some d => some d
  | none =>
    if hasOrdinal s then tryNaturalFormats NATURAL_FORMATS (subOrdinals s)
    else none

/- #### Strategy: compact numeric -/

/-- Model of `_try_create_date` cores: `datetime.date(int(y), int(m), int(d))`
with `ValueError` swallowed. -/
def tryCreateDateN (yn : Nat) (m d : List Char) : Option Date :=
  if allDigits m ∧ allDigits d then
    let mn := digitsVal m
    let dn := digitsVal d
    if 1 ≤ yn ∧ yn ≤ 9999 ∧ 1 ≤ mn ∧ mn ≤ 12 ∧ 1 ≤ dn ∧ dn ≤ daysInMonth yn mn then
      some ⟨yn, mn, dn⟩
    else none
  else none

def tryCreateDateL (y m d : List Char) : Option Date :=
  if allDigits y then tryCreateDateN (digitsVal y) m d else none

/-- The two-digit-year pivot of `_try_create_date_from_2_digit_year`:
0-49 → 2000s, 50-99 → 1900s. -/
def pivot2digit (v : Nat) : Nat := if v < 50 then 2000 + v else 1900 + v

def tryCreateDate2L (y m d : List Char) : Option Date :=
  if allDigits y then tryCreateDateN (pivot2digit (digitsVal y)) m d else none

/-- Model of `_parse_compact_numeric`: the slice layouts of the `parsers`
table, first valid reading wins (8-digit: YYYYMMDD, DDMMYYYY, MMDDYYYY;
6-digit: MMDDYY, DDMMYY, YYMMDD, all through the two-digit-year pivot). -/
def parseCompactNumeric (s : List Char) : Option Date :=
  if s.length = 8 then
    tryCreateDateL (s.take 4) ((s.drop 4).take 2) (s.drop 6) <|>
      tryCreateDateL (s.drop 4) ((s.drop 2).take 2) (s.take 2) <|>
        tryCreateDateL (s.drop 4) (s.take 2) ((s.drop 2).take 2)
  else if s.length = 6 then
    tryCreateDate2L ((s.drop 4).take 2) (s.take 2) ((s.drop 2).take 2) <|>
      tryCreateDate2L ((s.drop 4).take 2) ((s.drop 2).take 2) (s.take 2) <|>
        tryCreateDate2L (s.take 2) ((s.drop 2).take 2) ((s.drop 4).take 2)
  else none

/-- Model of `DateParser.parse_date` on an already-string input.  `today`
(the value of `datetime.date.today()` used by the relative-keyword strategy)
is passed explicitly.  Each strategy's hit is bounds-checked and returned
immediately; a miss falls through to the next strategy. -/
def parseDate (td : Date) (s : List Char) : Option Date :=
  let clean := trimL s
  if clean.length = 0 ∨ 1000 < clean.length then none
  else
    match parseUnixTimestamp clean with
    | some d => validateDateBounds d
    | none =>
      let c2 := replaceT (stripDayName clean)
      match getRelativeDate td (lowerL c2) with
      | some d => validateDateBounds d
      | none =>
        match parseJulian c2 with
        | some d => validateDateBounds d
        | none =>
          match parseExcelSerial c2 with
          | some d => validateDateBounds d
          | none =>
            match parseFiscalQuarter c2 with
            | some d => validateDateBounds d
            | none =>
              match parseSpecialFormats c2 with
              | some d => validateDateBounds d
              | none =>
                match (if 6 ≤ c2.length ∧ c2.length ≤ 8 ∧ allDigits c2 then
                        parseCompactNumeric c2
                      else none) with
                | some d => validateDateBounds d
                | none => formatLoop DATE_FORMATS (titleCase c2)

/- ### Claims about the parser -/

/-- C1 counterexample: the claim predicts `parse_date("01/01/50")` resolves
to 1950; the code resolves it to 2050-01-01 (CPython's `%y` pivot places
50 in the 2000s). -/
theorem claim_C1_counterexample :
    parseDate ⟨2026, 10, 12⟩ "01/01/50".toList = some ⟨2050, 1, 1⟩ ∧
    (⟨2050, 1, 1⟩ : Date) ≠ ⟨1950, 1, 1⟩ := by
  constructor
  · decide
  · decide

/-- C1 (amended): the compact-numeric strategy pivots two-digit years at 50
(0-49 → 2000s, 50-99 → 1900s) but the `%y` format-table strategies use
CPython's strptime pivot at 69 (0-68 → 2000s, 69-99 → 1900s); the two agree
on 05 → 2005 and 90 → 1990 but disagree on 50: `parse_date("01/01/50")`
yields 2050-01-01 while the compact reading of `"010150"` yields
1950-01-01. -/
theorem claim_C1_two_pivots :
    pivot2digit 5 = 2005 ∧ strptimePivot 5 = 2005 ∧
    pivot2digit 90 = 1990 ∧ strptimePivot 90 = 1990 ∧
    pivot2digit 50 = 1950 ∧ strptimePivot 50 = 2050 ∧
    parseDate ⟨2026, 10, 12⟩ "01/01/05".toList = some ⟨2005, 1, 1⟩ ∧
    parseDate ⟨2026, 10, 12⟩ "01/01/90".toList = some ⟨1990, 1, 1⟩ ∧
    parseDate ⟨2026, 10, 12⟩ "01/01/50".toList = some ⟨2050, 1, 1⟩ ∧
    parseCompactNumeric "010150".toList = some ⟨1950, 1, 1⟩ := by
  refine ⟨rfl, rfl, rfl, rfl, rfl, rfl, by decide, by decide, by decide, by decide⟩

/-- C4 counterexample: the claim's own example fails: `"today"` parses to
today's date but its case variant `"Today"` does not parse at all (the
`replace("T", " ")` preprocessing runs before any case normalization and
turns it into `" oday"`). -/
theorem claim_C4_counterexample :
    parseDate ⟨2026, 10, 12⟩ "today".toList = some ⟨2026, 10, 12⟩ ∧
    parseDate ⟨2026, 10, 12⟩ "Today".toList = none := by
  constructor
  · decide
  · decide

/-- C4 (amended): month names, weekday names and relative keywords are
matched case-insensitively except that the date-time separator replacement
`replace("T", " ")` is applied before case normalization, so case variants
containing an uppercase `T` can change the outcome: `"25 Oct 1990"` and
`"25 oct 1990"` parse to 1990-10-25 but `"25 OCT 1990"` does not parse;
`"today"` parses to today's date but `"Today"` and `"TODAY"` do not parse. -/
theorem claim_C4_case_sensitivity :
    parseDate ⟨2026, 10, 12⟩ "25 Oct 1990".toList = some ⟨1990, 10, 25⟩ ∧
    parseDate ⟨2026, 10, 12⟩ "25 oct 1990".toList = some ⟨1990, 10, 25⟩ ∧
    parseDate ⟨2026, 10, 12⟩ "25 OCT 1990".toList = none ∧
    parseDate ⟨2026, 10, 12⟩ "today".toList = some ⟨2026, 10, 12⟩ ∧
    parseDate ⟨2026, 10, 12⟩ "Today".toList = none ∧
    parseDate ⟨2026, 10, 12⟩ "TODAY".toList = none := by
  refine ⟨by decide, by decide, by decide, by decide, by decide, by decide⟩

/-- Spec-side reading (wording of claim C9): YYYYMMDD digit groups of an
8-digit string, as a calendar date when valid. -/
def specYYYYMMDD (s : List Char) : Option Date :=
  tryCreateDateL (s.take 4) ((s.drop 4).take 2) ((s.drop 6).take 2)

/-- Spec-side reading (wording of claim C9): DDMMYYYY digit groups. -/
def specDDMMYYYY (s : List Char) : Option Date :=
  tryCreateDateL (s.drop 4) ((s.drop 2).take 2) (s.take 2)

/-- Spec-side reading (wording of claim C9): MMDDYYYY digit groups. -/
def specMMDDYYYY (s : List Char) : Option Date :=
  tryCreateDateL (s.drop 4) (s.take 2) ((s.drop 2).take 2)

/-- Spec-side reading (wording of claim C9): MMDDYY digit groups of a
6-digit string, through the 0-49/50-99 two-digit-year pivot. -/
def specMMDDYY (s : List Char) : Option Date :=
  tryCreateDate2L ((s.drop 4).take 2) (s.take 2) ((s.drop 2).take 2)

/-- Spec-side reading (wording of claim C9): DDMMYY digit groups. -/
def specDDMMYY (s : List Char) : Option Date :=
  tryCreateDate2L ((s.drop 4).take 2) ((s.drop 2).take 2) (s.take 2)

/-- Third 6-digit reading of the source (absent from the claim): YYMMDD. -/
def specYYMMDD (s : List Char) : Option Date :=
  tryCreateDate2L (s.take 2) ((s.drop 2).take 2) ((s.drop 4).take 2)

/-- C9 counterexample: `"000101"` is valid under neither the MMDDYY nor the
DDMMYY reading, yet the compact-numeric strategy resolves it (to 2000-01-01,
via the third YYMMDD reading the claim omits). -/
theorem claim_C9_counterexample :
    specMMDDYY "000101".toList = none ∧
    specDDMMYY "000101".toList = none ∧
    parseCompactNumeric "000101".toList = some ⟨2000, 1, 1⟩ ∧
    parseDate ⟨2026, 10, 12⟩ "000101".toList = some ⟨2000, 1, 1⟩ := by
  refine ⟨by decide, by decide, by decide, by decide⟩

/-- C9 (amended): an 8-digit string is interpreted by trying YYYYMMDD, then
DDMMYYYY, then MMDDYYYY, first valid reading wins (`"19991020"` yields
1999-10-20); a 6-digit string is interpreted by trying MMDDYY, then DDMMYY,
then YYMMDD (each with the 0-49 → 2000s / 50-99 → 1900s pivot), first valid
reading wins. -/
theorem claim_C9_compact_order :
    (∀ s : List Char, s.length = 8 →
      parseCompactNumeric s = (specYYYYMMDD s <|> specDDMMYYYY s <|> specMMDDYYYY s)) ∧
    (∀ s : List Char, s.length = 6 →
      parseCompactNumeric s = (specMMDDYY s <|> specDDMMYY s <|> specYYMMDD s)) ∧
    parseDate ⟨2026, 10, 12⟩ "19991020".toList = some ⟨1999, 10, 20⟩ ∧
    specYYYYMMDD "19991020".toList = some ⟨1999, 10, 20⟩ := by
  refine ⟨?_, ?_, by decide, by decide⟩
  · intro s h8
    have hd6 : (s.drop 6).take 2 = s.drop 6 := by
      apply List.take_of_length_le
      simp [h8]
    unfold parseCompactNumeric specYYYYMMDD specDDMMYYYY specMMDDYYYY
    rw [if_pos h8, hd6]
  · intro s h6
    unfold parseCompactNumeric specMMDDYY specDDMMYY specYYMMDD
    rw [if_neg (by omega), if_pos h6]

/-- C9 witness: the amended order at the concrete inputs `"19991020"`
(8-digit) and `"251098"` (6-digit). -/
theorem claim_C9_compact_order_witness :
    parseCompactNumeric "19991020".toList =
      (specYYYYMMDD "19991020".toList <|> specDDMMYYYY "19991020".toList <|>
        specMMDDYYYY "19991020".toList) ∧
    parseCompactNumeric "251098".toList =
      (specMMDDYY "251098".toList <|> specDDMMYY "251098".toList <|>
        specYYMMDD "251098".toList) :=
  ⟨claim_C9_compact_order.1 "19991020".toList (by decide),
    claim_C9_compact_order.2.1 "251098".toList (by decide)⟩

/-- C10: for an input of the Julian shape `YYYY-D..DDD` (year nonzero), the
strategy produces `date(year, 1, 1) + (doy - 1)` exactly when the day of
year lies in [1, 365] ([1, 366] in leap years) and otherwise falls through;
overall, `parse_date("2023-366")` is a no-match while `parse_date("2024-366")`
is 2024-12-31. -/
theorem claim_C10_julian_range :
    (∀ y4 ds : List Char, y4.length = 4 → allDigits y4 = true →
      1 ≤ ds.length → ds.length ≤ 3 → allDigits ds = true → 1 ≤ digitsVal y4 →
      parseJulian (y4 ++ '-' :: ds) =
        (if 1 ≤ digitsVal ds ∧
            digitsVal ds ≤ (if isleap (digitsVal y4) then 366 else 365) then
          some (ord2ymd (toOrd ⟨digitsVal y4, 1, 1⟩ + (digitsVal ds - 1)))
        else none)) ∧
    parseDate ⟨2026, 10, 12⟩ "2023-366".toList = none ∧
    parseDate ⟨2026, 10, 12⟩ "2024-366".toList = some ⟨2024, 12, 31⟩ := by
  refine ⟨?_, by decide, by decide⟩
  intro y4 ds h4 hdig4 hlen1 hlen3 hdigs hy1
  have htake : (y4 ++ '-' :: ds).take 4 = y4 := List.take_left' h4
  have hdrop : (y4 ++ '-' :: ds).drop 4 = '-' :: ds := List.drop_left' h4
  unfold parseJulian
  rw [htake, hdrop]
  simp only [List.head?_cons, List.tail_cons, if_true]
  rw [if_pos ⟨h4, hdig4⟩, if_pos ⟨hlen1, hlen3, hdigs⟩]
  by_cases hr : 1 ≤ digitsVal ds ∧
      digitsVal ds ≤ (if isleap (digitsVal y4) then 366 else 365)
  · rw [if_pos hr, if_pos hy1]
    exact (if_pos hr).symm
  · rw [if_neg hr]
    exact (if_neg hr).symm

/-- C10 witness: the Julian characterization at `"2024-60"` (leap year). -/
theorem claim_C10_julian_range_witness :
    parseJulian ("2024".toList ++ '-' :: "60".toList) =
      (if 1 ≤ digitsVal "60".toList ∧
          digitsVal "60".toList ≤
            (if isleap (digitsVal "2024".toList) then 366 else 365) then
        some (ord2ymd (toOrd ⟨digitsVal "2024".toList, 1, 1⟩ +
          (digitsVal "60".toList - 1)))
      else none) :=
  claim_C10_julian_range.1 "2024".toList "60".toList (by decide) (by decide)
    (by decide) (by decide) (by decide) (by decide)

theorem validateDateBounds_some {x d : Date} (h : validateDateBounds x = some d) :
    1900 ≤ d.year ∧ d.year ≤ 2100 := by
  unfold validateDateBounds at h
  by_cases hb : 1900 ≤ x.year ∧ x.year ≤ 2100
  · rw [if_pos hb] at h
    cases h
    exact hb
  · rw [if_neg hb] at h
    cases h

/-- C6: whatever the input string and the current date, whenever
`parse_date` returns a date its year lies in the fixed plausible range
1900-2100 (every strategy's output passes `_validate_date_bounds`). -/
theorem claim_C6_year_bounds (td : Date) (s : List Char) (d : Date)
    (h : parseDate td s = some d) : 1900 ≤ d.year ∧ d.year ≤ 2100 := by
  have hloop : ∀ fmts s', formatLoop fmts s' = some d →
      1900 ≤ d.year ∧ d.year ≤ 2100 := by
    intro fmts
    induction fmts with
    | nil =>
      intro s' hx
      cases hx
    | cons f rest ih =>
      intro s' hx
      unfold formatLoop at hx
      split at hx
      · exact validateDateBounds_some hx
      · exact ih s' hx
  simp only [parseDate] at h
  by_cases h1 : (trimL s).length = 0 ∨ 1000 < (trimL s).length
  · rw [if_pos h1] at h
    cases h
  · rw [if_neg h1] at h
    split at h
    · exact validateDateBounds_some h
    · split at h
      · exact validateDateBounds_some h
      · split at h
        · exact validateDateBounds_some h
        · split at h
          · exact validateDateBounds_some h
          · split at h
            · exact validateDateBounds_some h
            · split at h
              · exact validateDateBounds_some h
              · split at h
                · exact validateDateBounds_some h
                · exact hloop _ _ h

/-- C6 witness: the bounds at the parse of `"2000-01-01"`. -/
theorem claim_C6_year_bounds_witness :
    parseDate ⟨2026, 10, 12⟩ "2000-01-01".toList = some ⟨2000, 1, 1⟩ ∧
    (1900 ≤ (⟨2000, 1, 1⟩ : Date).year ∧ (⟨2000, 1, 1⟩ : Date).year ≤ 2100) :=
  ⟨by decide, claim_C6_year_bounds ⟨2026, 10, 12⟩ "2000-01-01".toList ⟨2000, 1, 1⟩ (by decide)⟩

/- ### Claim C3: round-trip of the canonical ISO rendering

The rendering `YYYY-MM-DD` (zero-padded, hyphen-separated) is the spec's
wording; `isoRender` below is therefore a spec-side definition.  The proofs
track such a string symbolically through every strategy of the cascade. -/

/-- The digit character for `k` (0-9). -/
def dCh (k : Nat) : Char := Char.ofNat (48 + k)

/-- Two-digit zero-padded decimal rendering (`%02d`, for values below 100). -/
def pad2 (n : Nat) : List Char := [dCh (n / 10 % 10), dCh (n % 10)]

/-- Four-digit zero-padded decimal rendering (`%04d`, for values below 10000). -/
def pad4 (n : Nat) : List Char :=
  [dCh (n / 1000 % 10), dCh (n / 100 % 10), dCh (n / 10 % 10), dCh (n % 10)]

/-- Spec-side definition (claim C3's wording): a date rendered in ISO form
`YYYY-MM-DD`, zero-padded and hyphen-separated. -/
def isoRender (d : Date) : List Char :=
  pad4 d.year ++ '-' :: (pad2 d.month ++ '-' :: pad2 d.day)

theorem dCh_val {k : Nat} (hk : k ≤ 9) : (dCh k).toNat = 48 + k := by
  interval_cases k <;> decide

theorem dCh_isDigit {k : Nat} (hk : k ≤ 9) : isDigitB (dCh k) = true := by
  interval_cases k <;> decide

theorem dCh_not_space {k : Nat} (hk : k ≤ 9) : isSpaceB (dCh k) = false := by
  interval_cases k <;> decide

theorem dCh_not_alpha {k : Nat} (hk : k ≤ 9) : isAlphaA (dCh k) = false := by
  interval_cases k <;> decide

theorem dCh_lower {k : Nat} (hk : k ≤ 9) : toLowerA (dCh k) = dCh k := by
  interval_cases k <;> decide

theorem dCh_ne_char {k : Nat} {c : Char} (hk : k ≤ 9)
    (hc : c.toNat < 48 ∨ 57 < c.toNat) : ¬ dCh k = c := by
  intro he
  have h1 : 48 + k = c.toNat := by rw [← dCh_val hk, he]
  omega

theorem beq_dCh_false {c : Char} {k : Nat} (hk : k ≤ 9) (hc : 97 ≤ c.toNat) :
    (c == dCh k) = false := by
  cases hb : c == dCh k
  · rfl
  · exact absurd (congrArg Char.toNat (eq_of_beq hb)) (by rw [dCh_val hk]; omega)

theorem zero_le_dCh {k : Nat} (hk : k ≤ 9) : '0' ≤ dCh k := by
  interval_cases k <;> decide

theorem one_le_dCh {k : Nat} (h1 : 1 ≤ k) (hk : k ≤ 9) : '1' ≤ dCh k := by
  interval_cases k <;> decide

theorem dCh_le_char1 {k : Nat} (hk : k ≤ 1) : dCh k ≤ '1' := by
  interval_cases k <;> decide

theorem dCh_le_char2 {k : Nat} (hk : k ≤ 2) : dCh k ≤ '2' := by
  interval_cases k <;> decide

theorem dCh_le_char9 {k : Nat} (hk : k ≤ 9) : dCh k ≤ '9' := by
  interval_cases k <;> decide

/- #### The cascade on all-digit-and-hyphen strings -/

theorem findSome?_none {α β : Type} (f : α → Option β) :
    ∀ (l : List α), (∀ x ∈ l, f x = none) → l.findSome? f = none
  | [], _ => rfl
  | a :: t, h => by
    rw [List.findSome?_cons, h a (by simp)]
    exact findSome?_none f t (fun x hx => h x (by simp [hx]))

theorem dropWhile_eq_self_of {p : Char → Bool} {s : List Char}
    (h : ∀ c ∈ s, p c = false) : s.dropWhile p = s := by
  cases s with
  | nil => rfl
  | cons a t =>
    have ha : p a = false := h a (by simp)
    simp [List.dropWhile_cons, ha]

theorem trimL_eq_self {s : List Char} (h : ∀ c ∈ s, isSpaceB c = false) :
    trimL s = s := by
  unfold trimL
  rw [dropWhile_eq_self_of h,
    dropWhile_eq_self_of (fun c hc => h c (List.mem_reverse.mp hc)),
    List.reverse_reverse]

theorem replaceT_eq_self : ∀ {s : List Char},
    (∀ c ∈ s, ¬ c = 'T') → replaceT s = s
  | [], _ => rfl
  | a :: t, h => by
    have ht := replaceT_eq_self (s := t) (fun c hc => h c (by simp [hc]))
    simp only [replaceT, List.map_cons] at ht ⊢
    rw [if_neg (h a (by simp)), ht]

theorem lowerL_eq_self : ∀ {s : List Char},
    (∀ c ∈ s, toLowerA c = c) → lowerL s = s
  | [], _ => rfl
  | a :: t, h => by
    have ht := lowerL_eq_self (s := t) (fun c hc => h c (by simp [hc]))
    simp only [lowerL, List.map_cons] at ht ⊢
    rw [h a (by simp), ht]

theorem titleGo_eq_self : ∀ (s : List Char) (b : Bool),
    (∀ c ∈ s, isAlphaA c = false) → titleGo s b = s
  | [], _, _ => rfl
  | a :: t, b, h => by
    have ha : isAlphaA a = false := h a (by simp)
    have ht := titleGo_eq_self t false (fun c hc => h c (by simp [hc]))
    simp [titleGo, ha, ht]

theorem titleCase_eq_self {s : List Char} (h : ∀ c ∈ s, isAlphaA c = false) :
    titleCase s = s := titleGo_eq_self s false h

theorem ciStarts_false_head {p c : Char} {ps cs : List Char}
    (h : (toLowerA p == toLowerA c) = false) :
    ciStarts (p :: ps) (c :: cs) = false := by
  simp only [ciStarts, h, Bool.false_and]

theorem cons_ne_letter {c : Char} {k : Nat} {t rest : List Char}
    (hk : k ≤ 9) (hc : 97 ≤ c.toNat) : ¬ (dCh k :: t = c :: rest) := by
  intro he
  have h1 : dCh k = c := by injection he
  have h2 : 48 + k = c.toNat := by rw [← dCh_val hk, h1]
  omega

theorem stripDayName_digit {k : Nat} {t : List Char} (hk : k ≤ 9) :
    stripDayName (dCh k :: t) = dCh k :: t := by
  have hlw := dCh_lower hk
  have hnone : dayNamesList.findSome? (fun n =>
      if ciStarts n.toList (dCh k :: t) then some n.toList.length else none) = none := by
    apply findSome?_none
    intro n hn
    have hf : ciStarts n.toList (dCh k :: t) = false := by
      unfold dayNamesList at hn
      fin_cases hn <;>
        exact ciStarts_false_head (by rw [hlw]; exact beq_dCh_false hk (by decide))
    rw [hf]
    rfl
  unfold stripDayName
  rw [hnone]

theorem getRelativeDate_digit {r : Date} {k : Nat} {t : List Char} (hk : k ≤ 9) :
    getRelativeDate r (dCh k :: t) = none := by
  have hnone : relativeKeys.findSome? (fun kv =>
      if dCh k :: t = kv.1.toList then some kv.2 else none) = none := by
    apply findSome?_none
    intro kv hkv
    unfold relativeKeys at hkv
    fin_cases hkv <;> exact if_neg (cons_ne_letter hk (by decide))
  unfold getRelativeDate
  rw [hnone]

theorem parseUnixTimestamp_none {s : List Char} (hAD : allDigits s = false)
    (hlen : s.length ≠ 1) : parseUnixTimestamp s = none := by
  have hg : ¬ (s = ['0'] ∨ 9 ≤ s.length ∧ s.length ≤ 10 ∧ allDigits s) := by
    rintro (rfl | ⟨-, -, hall⟩)
    · exact hlen rfl
    · rw [hAD] at hall
      exact Bool.noConfusion hall
  unfold parseUnixTimestamp
  rw [if_neg hg]

theorem parseJulian_iso (a b c d e f g h : Char) :
    parseJulian [a, b, c, d, '-', e, f, '-', g, h] = none := by
  simp [parseJulian]

theorem parseExcelSerial_len10 {s : List Char} (h : s.length = 10) :
    parseExcelSerial s = none := by
  unfold parseExcelSerial
  rw [if_pos (Or.inl (by rintro ⟨-, h7, -⟩; omega))]

theorem parseFiscalQuarter_iso (a b c d e f g h : Char) :
    parseFiscalQuarter [a, b, c, d, '-', e, f, '-', g, h] = none := by
  simp [parseFiscalQuarter]

theorem toLowerA_eq_self_of_not_alpha {a : Char} (h : isAlphaA a = false) :
    toLowerA a = a := by
  have hcond : ¬ ((65 ≤ a.toNat && a.toNat ≤ 90) = true) := by
    intro hc
    unfold isAlphaA at h
    simp at h hc
    omega
  unfold toLowerA
  rw [if_neg hcond]

theorem digits12_rest_mem {s : List Char} :
    ∀ p ∈ digits12 s, ∀ c ∈ p.2, c ∈ s := by
  intro p hp c hc
  rcases s with - | ⟨a, s1⟩
  · simp [digits12] at hp
  · rcases s1 with - | ⟨b, t⟩
    · simp only [digits12] at hp
      split at hp
      · simp at hp
        rw [hp] at hc
        simp at hc
      · simp at hp
    · simp only [digits12] at hp
      rcases List.mem_append.mp hp with h1 | h1
      · split at h1
        · simp at h1
          rw [h1] at hc
          simp at hc
          simp [hc]
        · simp at h1
      · split at h1
        · simp at h1
          rw [h1] at hc
          simp at hc
          rcases hc with rfl | hc
          · simp
          · simp [hc]
        · simp at h1

theorem suffixSplits_mem {s : List Char} :
    ∀ r ∈ suffixSplits s, ∀ c ∈ r, c ∈ s := by
  intro r hr c hc
  rcases s with - | ⟨a, s1⟩
  · simp [suffixSplits] at hr
  · rcases s1 with - | ⟨b, t⟩
    · simp [suffixSplits] at hr
    · simp only [suffixSplits] at hr
      rcases List.mem_filterMap.mp hr with ⟨p, -, hpr⟩
      split at hpr
      · injection hpr with h2
        subst h2
        exact List.mem_cons_of_mem a (List.mem_cons_of_mem b hc)
      · exact Option.noConfusion hpr

theorem wsSplits_eq_nil {s : List Char} (h : ∀ c ∈ s, isSpaceB c = false) :
    wsSplits s = [] := by
  have htw : s.takeWhile isSpaceB = [] := by
    rcases s with - | ⟨a, t⟩
    · rfl
    · have ha : ¬ (isSpaceB a = true) := by simp [h a (by simp)]
      rw [List.takeWhile_cons, if_neg ha]
  simp [wsSplits, htw]

theorem suffixSplits_eq_nil {s : List Char} (h : ∀ c ∈ s, isAlphaA c = false) :
    suffixSplits s = [] := by
  rcases s with - | ⟨a, s1⟩
  · rfl
  · rcases s1 with - | ⟨b, t⟩
    · rfl
    · have ha : isAlphaA a = false := h a (by simp)
      have hla := toLowerA_eq_self_of_not_alpha ha
      have h1 : ¬ a = 's' := fun he => by rw [he] at ha; exact absurd ha (by decide)
      have h2 : ¬ a = 'n' := fun he => by rw [he] at ha; exact absurd ha (by decide)
      have h3 : ¬ a = 'r' := fun he => by rw [he] at ha; exact absurd ha (by decide)
      have h4 : ¬ a = 't' := fun he => by rw [he] at ha; exact absurd ha (by decide)
      simp [suffixSplits, hla, h1, h2, h3, h4]

theorem ordSuffixAt_eq_none {s : List Char} (h : ∀ c ∈ s, isAlphaA c = false) :
    ordSuffixAt s = none := by
  unfold ordSuffixAt
  apply findSome?_none
  intro p hp
  rw [suffixSplits_eq_nil (fun c hc => h c (digits12_rest_mem p hp c hc))]

theorem hasOrdinal_eq_false : ∀ {s : List Char},
    (∀ c ∈ s, isAlphaA c = false) → hasOrdinal s = false
  | [], _ => rfl
  | c :: t, h => by
    show ((ordSuffixAt (c :: t)).isSome || hasOrdinal t) = false
    rw [ordSuffixAt_eq_none h, hasOrdinal_eq_false (fun x hx => h x (by simp [hx]))]
    rfl

theorem dayOfMonthMatch_none {s : List Char} (hsp : ∀ c ∈ s, isSpaceB c = false) :
    dayOfMonthMatch s = none := by
  unfold dayOfMonthMatch
  apply findSome?_none
  intro dr hdr
  apply findSome?_none
  intro r2 hr2
  have hmem : ∀ c ∈ r2, c ∈ s := by
    intro c hc
    rcases List.mem_append.mp hr2 with h2 | h2
    · exact digits12_rest_mem dr hdr c (suffixSplits_mem r2 h2 c hc)
    · have he : r2 = dr.2 := by simpa using h2
      rw [he] at hc
      exact digits12_rest_mem dr hdr c hc
  rw [wsSplits_eq_nil (fun c hc => hsp c (hmem c hc))]
  rfl

theorem parseSpecialFormats_none {s : List Char}
    (hsp : ∀ c ∈ s, isSpaceB c = false) (hal : ∀ c ∈ s, isAlphaA c = false) :
    parseSpecialFormats s = none := by
  unfold parseSpecialFormats
  rw [dayOfMonthMatch_none hsp, hasOrdinal_eq_false hal]
  rfl

/- #### The first format of the table on the ISO rendering -/

theorem digitsVal4 (a b c e : Nat) (ha : a ≤ 9) (hb : b ≤ 9) (hc : c ≤ 9)
    (he : e ≤ 9) :
    digitsVal [dCh a, dCh b, dCh c, dCh e] = ((a * 10 + b) * 10 + c) * 10 + e := by
  unfold digitsVal
  simp only [List.foldl_cons, List.foldl_nil]
  rw [dCh_val ha, dCh_val hb, dCh_val hc, dCh_val he]
  omega

theorem take4digits_iso (a b c e : Nat) (rest : List Char) (ha : a ≤ 9)
    (hb : b ≤ 9) (hc : c ≤ 9) (he : e ≤ 9) :
    take4digits (dCh a :: dCh b :: dCh c :: dCh e :: rest) =
      some ([dCh a, dCh b, dCh c, dCh e], rest) := by
  have hcond : ([dCh a, dCh b, dCh c, dCh e] : List Char).length = 4 ∧
      allDigits [dCh a, dCh b, dCh c, dCh e] := by
    refine ⟨rfl, ?_⟩
    simp [allDigits, dCh_isDigit ha, dCh_isDigit hb, dCh_isDigit hc, dCh_isDigit he]
  have ht : (dCh a :: dCh b :: dCh c :: dCh e :: rest).take 4 =
      [dCh a, dCh b, dCh c, dCh e] := rfl
  have hd : (dCh a :: dCh b :: dCh c :: dCh e :: rest).drop 4 = rest := rfl
  simp only [take4digits]
  rw [ht, hd, if_pos hcond]

theorem d2val_dCh (j k : Nat) (hj : j ≤ 9) (hk : k ≤ 9) :
    d2val (dCh j) (dCh k) = 10 * j + k := by
  unfold d2val
  rw [dCh_val hj, dCh_val hk]
  omega

theorem mAlts_pad {m : Nat} (hm1 : 1 ≤ m) (hm12 : m ≤ 12) (t : List Char) :
    mAlts (dCh (m / 10 % 10) :: dCh (m % 10) :: t) =
      (m, t) :: (if 10 ≤ m then [(1, dCh (m % 10) :: t)] else []) := by
  by_cases hm : 10 ≤ m
  · have e5 : m / 10 % 10 = 1 := by omega
    rw [e5]
    have f1 : '0' ≤ dCh (m % 10) := zero_le_dCh (by omega)
    have f2 : dCh (m % 10) ≤ '2' := dCh_le_char2 (by omega)
    have hv : d2val (dCh 1) (dCh (m % 10)) = m := by
      rw [d2val_dCh 1 (m % 10) (by omega) (by omega)]
      omega
    simp +decide [mAlts, f1, f2, hv, hm]
  · have e5 : m / 10 % 10 = 0 := by omega
    rw [e5]
    have f1 : '1' ≤ dCh (m % 10) := one_le_dCh (by omega) (by omega)
    have f2 : dCh (m % 10) ≤ '9' := dCh_le_char9 (by omega)
    have hv : d2val (dCh 0) (dCh (m % 10)) = m := by
      rw [d2val_dCh 0 (m % 10) (by omega) (by omega)]
      omega
    simp +decide [mAlts, f1, f2, hv, hm]

theorem dAlts_pad {d : Nat} (hd1 : 1 ≤ d) (hd31 : d ≤ 31) :
    dAlts [dCh (d / 10 % 10), dCh (d % 10)] =
      (d, []) :: (if 10 ≤ d then [(d / 10, [dCh (d % 10)])] else []) := by
  rcases Nat.lt_or_ge d 10 with h10 | h10
  · have e7 : d / 10 % 10 = 0 := by omega
    rw [e7]
    have hn : ¬ 10 ≤ d := by omega
    have f1 : '1' ≤ dCh (d % 10) := one_le_dCh (by omega) (by omega)
    have f2 : dCh (d % 10) ≤ '9' := dCh_le_char9 (by omega)
    have hv : d2val (dCh 0) (dCh (d % 10)) = d := by
      rw [d2val_dCh 0 (d % 10) (by omega) (by omega)]
      omega
    simp +decide [dAlts, f1, f2, hv, hn]
  · rcases Nat.lt_or_ge d 30 with h30 | h30
    · have hd10 : d / 10 % 10 = d / 10 := by omega
      rw [hd10]
      have g1 : '1' ≤ dCh (d / 10) := one_le_dCh (by omega) (by omega)
      have g2 : dCh (d / 10) ≤ '2' := dCh_le_char2 (by omega)
      have g3 : ¬ dCh (d / 10) = '3' := by
        intro he
        have h1 := congrArg Char.toNat he
        rw [dCh_val (show d / 10 ≤ 9 by omega)] at h1
        simp at h1
        omega
      have g4 : ¬ dCh (d / 10) = '0' := by
        intro he
        have h1 := congrArg Char.toNat he
        rw [dCh_val (show d / 10 ≤ 9 by omega)] at h1
        simp at h1
        omega
      have g5 : isDigitB (dCh (d % 10)) = true := dCh_isDigit (by omega)
      have g6 : dCh (d / 10) ≤ '9' := dCh_le_char9 (by omega)
      have hv : d2val (dCh (d / 10)) (dCh (d % 10)) = d := by
        rw [d2val_dCh (d / 10) (d % 10) (by omega) (by omega)]
        omega
      have hd1v : d1val (dCh (d / 10)) = d / 10 := by
        unfold d1val
        rw [dCh_val (show d / 10 ≤ 9 by omega)]
        omega
      simp +decide [dAlts, g1, g2, g3, g4, g5, g6, hv, hd1v, h10]
    · have e7 : d / 10 % 10 = 3 := by omega
      rw [e7]
      have hq : d / 10 = 3 := by omega
      rw [hq]
      have f1 : '0' ≤ dCh (d % 10) := zero_le_dCh (by omega)
      have f2 : dCh (d % 10) ≤ '1' := dCh_le_char1 (by omega)
      have hv : d2val (dCh 3) (dCh (d % 10)) = d := by
        rw [d2val_dCh 3 (d % 10) (by omega) (by omega)]
        omega
      simp +decide [dAlts, f1, f2, hv, h10]

theorem tryStrptime_iso {y m d : Nat} (hy1 : 1 ≤ y) (hy9 : y ≤ 9999)
    (hm1 : 1 ≤ m) (hm12 : m ≤ 12) (hd1 : 1 ≤ d) (hdim : d ≤ daysInMonth y m) :
    tryStrptime
      [dCh (y / 1000 % 10), dCh (y / 100 % 10), dCh (y / 10 % 10), dCh (y % 10),
       '-', dCh (m / 10 % 10), dCh (m % 10), '-', dCh (d / 10 % 10), dCh (d % 10)]
      "%Y-%m-%d" = some ⟨y, m, d⟩ := by
  have hd31 : d ≤ 31 := le_trans hdim (daysInMonth_le_31 y m)
  have hfmt : compileFmt "%Y-%m-%d".toList =
      [FTok.dY, FTok.lit '-', FTok.dm, FTok.lit '-', FTok.dd] := by decide
  unfold tryStrptime
  rw [hfmt]
  have h4 := take4digits_iso (y / 1000 % 10) (y / 100 % 10) (y / 10 % 10) (y % 10)
    ['-', dCh (m / 10 % 10), dCh (m % 10), '-', dCh (d / 10 % 10), dCh (d % 10)]
    (by omega) (by omega) (by omega) (by omega)
  have hY : digitsVal [dCh (y / 1000 % 10), dCh (y / 100 % 10), dCh (y / 10 % 10),
      dCh (y % 10)] = y := by
    rw [digitsVal4 (y / 1000 % 10) (y / 100 % 10) (y / 10 % 10) (y % 10)
      (by omega) (by omega) (by omega) (by omega)]
    omega
  have hne1 : ¬ toLowerA (dCh (m % 10)) = toLowerA '-' := by
    rw [dCh_lower (show m % 10 ≤ 9 by omega), show toLowerA '-' = '-' from by decide]
    exact dCh_ne_char (by omega) (by decide)
  simp [matchToks, matchTok, h4, hY, mAlts_pad hm1 hm12, dAlts_pad hd1 hd31, hne1,
    buildDate, hy1, hy9, hm1, hm12, hd1, hdim]

theorem formatLoop_head_some {fmt : String} {rest : List String} {s : List Char}
    {d : Date} (h : tryStrptime s fmt = some d) (hdd : hasDayDirective fmt = true) :
    formatLoop (fmt :: rest) s = validateDateBounds d := by
  unfold formatLoop
  rw [h, hdd]
  simp

/-- C3 counterexample: the claim asserts the ISO round-trip with no
restriction on the year, but the valid date 1899-12-31 fails it:
`parse_date("1899-12-31")` returns `None`, because `_validate_date_bounds`
rejects years below 1900. -/
theorem claim_C3_counterexample :
    validDate ⟨1899, 12, 31⟩ ∧
    isoRender ⟨1899, 12, 31⟩ = "1899-12-31".toList ∧
    parseDate ⟨2026, 10, 12⟩ "1899-12-31".toList = none := by
  refine ⟨by decide, by decide, by decide⟩

/-- C3 (amended): the ISO round-trip holds exactly on the parser's bounds
window: for every valid Gregorian date `d` with `1900 ≤ d.year ≤ 2100` (and
any current date), `parse_date` applied to `d` rendered in zero-padded ISO
form `YYYY-MM-DD` returns exactly `d`. -/
theorem claim_C3_iso_roundtrip (td d : Date) (hv : validDate d)
    (hlow : 1900 ≤ d.year) (hhigh : d.year ≤ 2100) :
    parseDate td (isoRender d) = some d := by
  obtain ⟨y, m, dd⟩ := d
  unfold validDate at hv
  dsimp only at hv hlow hhigh
  obtain ⟨hy1, hm1, hm12, hd1, hdim⟩ := hv
  have hy9 : y ≤ 9999 := by omega
  have hiso : isoRender ⟨y, m, dd⟩ =
      [dCh (y / 1000 % 10), dCh (y / 100 % 10), dCh (y / 10 % 10), dCh (y % 10),
       '-', dCh (m / 10 % 10), dCh (m % 10), '-', dCh (dd / 10 % 10), dCh (dd % 10)] := by
    simp [isoRender, pad4, pad2]
  rw [hiso]
  have hsp : ∀ c ∈ [dCh (y / 1000 % 10), dCh (y / 100 % 10), dCh (y / 10 % 10),
      dCh (y % 10), '-', dCh (m / 10 % 10), dCh (m % 10), '-',
      dCh (dd / 10 % 10), dCh (dd % 10)], isSpaceB c = false := by
    intro c hc
    simp only [List.mem_cons, List.not_mem_nil, or_false] at hc
    rcases hc with rfl | rfl | rfl | rfl | rfl | rfl | rfl | rfl | rfl | rfl <;>
      first
        | decide
        | exact dCh_not_space (by omega)
  have hal : ∀ c ∈ [dCh (y / 1000 % 10), dCh (y / 100 % 10), dCh (y / 10 % 10),
      dCh (y % 10), '-', dCh (m / 10 % 10), dCh (m % 10), '-',
      dCh (dd / 10 % 10), dCh (dd % 10)], isAlphaA c = false := by
    intro c hc
    simp only [List.mem_cons, List.not_mem_nil, or_false] at hc
    rcases hc with rfl | rfl | rfl | rfl | rfl | rfl | rfl | rfl | rfl | rfl <;>
      first
        | decide
        | exact dCh_not_alpha (by omega)
  have hnT : ∀ c ∈ [dCh (y / 1000 % 10), dCh (y / 100 % 10), dCh (y / 10 % 10),
      dCh (y % 10), '-', dCh (m / 10 % 10), dCh (m % 10), '-',
      dCh (dd / 10 % 10), dCh (dd % 10)], ¬ c = 'T' := by
    intro c hc
    simp only [List.mem_cons, List.not_mem_nil, or_false] at hc
    rcases hc with rfl | rfl | rfl | rfl | rfl | rfl | rfl | rfl | rfl | rfl <;>
      first
        | decide
        | exact dCh_ne_char (by omega) (by decide)
  have hlc : ∀ c ∈ [dCh (y / 1000 % 10), dCh (y / 100 % 10), dCh (y / 10 % 10),
      dCh (y % 10), '-', dCh (m / 10 % 10), dCh (m % 10), '-',
      dCh (dd / 10 % 10), dCh (dd % 10)], toLowerA c = c := by
    intro c hc
    simp only [List.mem_cons, List.not_mem_nil, or_false] at hc
    rcases hc with rfl | rfl | rfl | rfl | rfl | rfl | rfl | rfl | rfl | rfl <;>
      first
        | decide
        | exact dCh_lower (by omega)
  have htrim := trimL_eq_self hsp
  have hAD : allDigits [dCh (y / 1000 % 10), dCh (y / 100 % 10), dCh (y / 10 % 10),
      dCh (y % 10), '-', dCh (m / 10 % 10), dCh (m % 10), '-',
      dCh (dd / 10 % 10), dCh (dd % 10)] = false := by
    simp +decide [allDigits]
  have hU := parseUnixTimestamp_none hAD (by simp)
  have hSD := stripDayName_digit (t := [dCh (y / 100 % 10), dCh (y / 10 % 10),
    dCh (y % 10), '-', dCh (m / 10 % 10), dCh (m % 10), '-',
    dCh (dd / 10 % 10), dCh (dd % 10)]) (show y / 1000 % 10 ≤ 9 by omega)
  have hRT := replaceT_eq_self hnT
  have hLL := lowerL_eq_self hlc
  have hRel := getRelativeDate_digit (r := td) (t := [dCh (y / 100 % 10),
    dCh (y / 10 % 10), dCh (y % 10), '-', dCh (m / 10 % 10), dCh (m % 10), '-',
    dCh (dd / 10 % 10), dCh (dd % 10)]) (show y / 1000 % 10 ≤ 9 by omega)
  have hJ := parseJulian_iso (dCh (y / 1000 % 10)) (dCh (y / 100 % 10))
    (dCh (y / 10 % 10)) (dCh (y % 10)) (dCh (m / 10 % 10)) (dCh (m % 10))
    (dCh (dd / 10 % 10)) (dCh (dd % 10))
  have hE := parseExcelSerial_len10 (s := [dCh (y / 1000 % 10), dCh (y / 100 % 10),
    dCh (y / 10 % 10), dCh (y % 10), '-', dCh (m / 10 % 10), dCh (m % 10), '-',
    dCh (dd / 10 % 10), dCh (dd % 10)]) (by simp)
  have hF := parseFiscalQuarter_iso (dCh (y / 1000 % 10)) (dCh (y / 100 % 10))
    (dCh (y / 10 % 10)) (dCh (y % 10)) (dCh (m / 10 % 10)) (dCh (m % 10))
    (dCh (dd / 10 % 10)) (dCh (dd % 10))
  have hS := parseSpecialFormats_none hsp hal
  have hTi := titleCase_eq_self hal
  have hTry := tryStrptime_iso hy1 hy9 hm1 hm12 hd1 hdim
  simp only [parseDate, htrim, hU, hSD, hRT, hLL, hRel, hJ, hE, hF, hS, hTi, hAD,
    List.length_cons, List.length_nil]
  rw [if_neg (by omega)]
  rw [if_neg (by decide)]
  rw [show DATE_FORMATS = "%Y-%m-%d" :: DATE_FORMATS.tail from rfl]
  rw [formatLoop_head_some hTry (by decide)]
  unfold validateDateBounds
  rw [if_pos ⟨hlow, hhigh⟩]

theorem claim_C3_iso_roundtrip_witness :
    validDate ⟨2024, 2, 29⟩ ∧
    parseDate ⟨2026, 10, 12⟩ (isoRender ⟨2024, 2, 29⟩) = some ⟨2024, 2, 29⟩ :=
  ⟨by decide,
    claim_C3_iso_roundtrip ⟨2026, 10, 12⟩ ⟨2024, 2, 29⟩ (by decide) (by decide) (by decide)⟩

end AgeCalc
